import Mathlib

/-!
Verification of the TypeScript code-visualizer analysis pipeline.

This file gives a shallow embedding, in Lean 4, of the static-analysis core
of the repository: the parser driver with its validation checks and
three-tier fallback (codeParser.ts, parseTypeScriptCode), the function
extractor (extractFunctions and its visitors), the call extractor
(extractFunctionCalls with its mutable current-function slot), the graph
builder (createFunctionEdges, groupCallsByRelationship, simplifyGraph from
graphBuilder.ts) and the layout engine (layoutNodes, createCircularLayout,
createHierarchicalLayout, createHorizontalLayout, autoLayout from
layoutEngine.ts).

Modelling conventions.
* The Babel parser itself is external code; it is represented by an oracle
  (ParserOracle) returning either a syntax tree or an error, one oracle
  field per fallback tier.  The dagre layout algorithm and the
  trigonometric functions used by the circular layout are likewise external
  and are represented by oracle parameters; all structural facts proved
  below hold for every oracle.
* Babel AST nodes are the inductive type Node below.  Source locations and
  leading comments are not modelled, so extracted location spans are zero
  and extracted documentation is the value produced on the no-comment path
  of the source.  Parameter sub-trees and pattern sub-trees are modelled as
  patterns (Pat), not as traversed nodes; no claim below depends on
  traversal inside parameter positions.
* JavaScript numbers are modelled as rationals where fractional values
  occur (layout) and as naturals where only lengths and counts occur.
-/

namespace CodeViz

/-! ## String helpers -/

/-- Sanitization used by createNodeId and createEdgeId in graphBuilder.ts:
every character outside the ranges a-z, A-Z, 0-9 is replaced by an
underscore (the regex replace with the pattern class of non-alphanumerics). -/
def isAlphaNum (c : Char) : Bool :=
  (('a' ≤ c ∧ c ≤ 'z') ∨ ('A' ≤ c ∧ c ≤ 'Z') ∨ ('0' ≤ c ∧ c ≤ '9'))

def sanitizeId (s : String) : String :=
  String.mk (s.data.map fun c => if isAlphaNum c then c else '_')

/-- JavaScript String.prototype.toLowerCase restricted to the characters the
code compares against (plain ASCII). -/
def lowerStr (s : String) : String :=
  String.mk (s.data.map Char.toLower)

/-- JavaScript String.prototype.includes: true when the second list occurs
as a contiguous infix of the first. -/
def containsSub (hay pat : List Char) : Bool :=
  match hay with
  | [] => pat.isEmpty
  | _ :: rest => pat.isPrefixOf hay || containsSub rest pat

def strIncludes (hay pat : String) : Bool :=
  containsSub hay.data pat.data

/-- JavaScript String.prototype.split helper: locate the first occurrence of
the separator, returning the text before it and the text after it. -/
def findSplit (sep : List Char) : List Char → Option (List Char × List Char)
  | [] => none
  | c :: rest =>
    if sep.isPrefixOf (c :: rest) then some ([], (c :: rest).drop sep.length)
    else (findSplit sep rest).map fun p => (c :: p.1, p.2)

/-- JavaScript String.prototype.split with a nonempty string separator,
implemented with fuel (the input length suffices, every step consumes at
least the matched separator). -/
def splitChars (sep : List Char) : Nat → List Char → List (List Char)
  | 0, s => [s]
  | fuel + 1, s =>
    match findSplit sep s with
    | none => [s]
    | some (before, after) => before :: splitChars sep fuel after

def splitStr (s sep : String) : List String :=
  (splitChars sep.data (s.data.length + 1) s.data).map String.mk

/-- Parse a nonempty run of decimal digits, as parseInt with base 10 does on
a digit-only string. -/
def digitsToNat (ds : List Char) : Nat :=
  ds.foldl (fun acc c => acc * 10 + (c.toNat - '0'.toNat)) 0

def isDigit (c : Char) : Bool := '0' ≤ c ∧ c ≤ '9'

/-- Try to match the pattern of an opening parenthesis, one or more digits,
a colon, one or more digits and a closing parenthesis at the head of the
character list; this is the regex used on Babel error messages. -/
def lineColAt (s : List Char) : Option (Nat × Nat) :=
  match s with
  | '(' :: rest =>
    let ds1 := rest.takeWhile isDigit
    let rest1 := rest.dropWhile isDigit
    if ds1.isEmpty then none
    else
      match rest1 with
      | ':' :: rest2 =>
        let ds2 := rest2.takeWhile isDigit
        let rest3 := rest2.dropWhile isDigit
        if ds2.isEmpty then none
        else
          match rest3 with
          | ')' :: _ => some (digitsToNat ds1, digitsToNat ds2)
          | _ => none
      | _ => none
  | _ => none

/-- Leftmost match of the line-and-column pattern inside a message, the
behaviour of the regex match call in parseTypeScriptCode. -/
def extractLineCol : List Char → Option (Nat × Nat)
  | [] => none
  | c :: rest =>
    match lineColAt (c :: rest) with
    | some lc => some lc
    | none => extractLineCol rest

/-! ## Data model: FunctionData, FunctionCall, ParseError, ParsedCodeResult -/

structure FunctionParameter where
  name : String
  type : String
  optional : Bool
  defaultValue : Option String := none
deriving DecidableEq, Repr

structure SourceSpan where
  startLine : Nat
  endLine : Nat
  startColumn : Nat
  endColumn : Nat
deriving DecidableEq, Repr

structure FunctionData where
  name : String
  parameters : List FunctionParameter
  returnType : String
  location : SourceSpan
  async : Bool
  exported : Bool
  documentation : Option String
deriving DecidableEq, Repr

structure FunctionCall where
  caller : String
  callee : String
  lineNumber : Nat
deriving DecidableEq, Repr

inductive ErrType where
  | validation
  | syntaxError
  | analysis
  | network
deriving DecidableEq, Repr

structure ParseError where
  type : ErrType
  message : String
  line : Option Nat := none
  column : Option Nat := none
deriving DecidableEq, Repr

structure ParseMetadata where
  totalFunctions : Nat
  totalCalls : Nat
  imports : List String
  exports : List String
deriving DecidableEq, Repr

structure ParsedCodeResult where
  functions : List FunctionData
  calls : List FunctionCall
  errors : List ParseError
  metadata : Option ParseMetadata := none
deriving DecidableEq, Repr

/-! ## The syntax tree -/

/-- TypeScript type annotations, as far as generateTypeFromTSType inspects
them; every shape the source maps to the string any is folded into the
constructor otherTy. -/
inductive Ts where
  | strTy | numTy | boolTy | voidTy | anyTy | unknownTy | nullTy | undefinedTy
  | ref (typeName : Option String)
  | arr (elementType : Ts)
  | union (types : List Ts)
  | otherTy

/-- Default-value expressions of parameters, as far as generateCodeFromNode
inspects them. -/
inductive DefVal where
  | strLit (value : String)
  | numLit (printed : String)
  | boolLit (value : Bool)
  | nullLit
  | identRef (name : String)
  | otherVal

/-- Function parameter patterns, as far as extractParameters inspects them. -/
inductive Pat where
  | identPat (name : String) (optional : Bool) (ty : Option Ts)
  | assignPat (left : Pat) (right : DefVal)
  | restPat (argument : Pat)
  | otherPat

/-- Babel syntax-tree nodes, restricted to the node kinds the extraction
code dispatches on; every other node kind is otherNode with its traversable
children.  Class bodies are flattened into the class node (the intervening
ClassBody node changes neither the ancestor walks nor any visitor), and JSX
attributes hang directly off the element (the intervening JSXOpeningElement
likewise changes no visitor).  Keys of class and object members are
modelled as some name exactly when the key is an Identifier. -/
inductive Node where
  | program (body : List Node)
  | functionDeclaration (id : Option String) (async : Bool) (params : List Pat)
      (returnType : Option Ts) (body : List Node)
  | functionExpression (id : Option String) (async : Bool) (params : List Pat)
      (returnType : Option Ts) (body : List Node)
  | arrowFunctionExpression (async : Bool) (params : List Pat)
      (returnType : Option Ts) (body : List Node)
  | variableDeclaration (declarations : List Node)
  | variableDeclarator (id : Pat) (init : Option Node)
  | classDeclaration (id : Option String) (members : List Node)
  | classExpression (id : Option String) (members : List Node)
  | classMethod (key : Option String) (async : Bool) (params : List Pat)
      (returnType : Option Ts) (body : List Node)
  | objectExpression (properties : List Node)
  | objectMethod (key : Option String) (async : Bool) (params : List Pat)
      (returnType : Option Ts) (body : List Node)
  | objectProperty (key : Option String) (value : Node)
  | callExpression (callee : Node) (args : List Node)
  | memberExpression (object : Node) (property : Node)
  | thisExpression
  | identifier (name : String)
  | exportNamedDeclaration (declaration : Option Node) (specifiers : List String)
  | exportDefaultDeclaration (declaration : Node)
  | importDeclaration (source : String)
  | jsxElement (tag : Option String) (attributes : List Node) (children : List Node)
  | jsxFragment (children : List Node)
  | jsxAttribute (name : Option String) (value : Option Node)
  | jsxExpressionContainer (expression : Node)
  | expressionStatement (expression : Node)
  | returnStatement (argument : Option Node)
  | otherNode (children : List Node)

/-! ## Rendering of types, parameters and default values (codeParser.ts) -/

mutual
/-- generateTypeFromTSType: primitive keywords map to their literal name,
identifier type references to their name, array types to elem followed by
square brackets, union types join members with a pipe, anything else is
the string any. -/
def generateTypeFromTSType : Ts → String
  | .strTy => "string"
  | .numTy => "number"
  | .boolTy => "boolean"
  | .voidTy => "void"
  | .anyTy => "any"
  | .unknownTy => "unknown"
  | .nullTy => "null"
  | .undefinedTy => "undefined"
  | .ref (some typeName) => typeName
  | .ref none => "any"
  | .arr elementType => generateTypeFromTSType elementType ++ "[]"
  | .union types => String.intercalate " | " (generateTypeStrings types)
  | .otherTy => "any"

def generateTypeStrings : List Ts → List String
  | [] => []
  | t :: ts => generateTypeFromTSType t :: generateTypeStrings ts
end

/-- extractTypeAnnotation: a missing annotation (and the Flow branch, which
the source also maps to any) is the string any. -/
def extractTypeAnnotation : Option Ts → String
  | none => "any"
  | some t => generateTypeFromTSType t

/-- extractReturnType has the same shape as extractTypeAnnotation. -/
def extractReturnType : Option Ts → String
  | none => "any"
  | some t => generateTypeFromTSType t

/-- generateCodeFromNode, used to print parameter default values. -/
def generateCodeFromNode : DefVal → String
  | .strLit v => "\"" ++ v ++ "\""
  | .numLit printed => printed
  | .boolLit b => if b then "true" else "false"
  | .nullLit => "null"
  | .identRef n => n
  | .otherVal => "unknown"

/-- extractParameters: positional extraction with the four source cases
(plain identifier, identifier with default, rest element, any other
pattern falls back to a numbered placeholder of type any). -/
def extractParameters (params : List Pat) : List FunctionParameter :=
  params.enum.map fun ip =>
    match ip.2 with
    | .identPat name opt ty =>
      { name := name, type := extractTypeAnnotation ty, optional := opt }
    | .assignPat (.identPat name _ ty) right =>
      { name := name, type := extractTypeAnnotation ty, optional := true,
        defaultValue := some (generateCodeFromNode right) }
    | .restPat (.identPat name _ ty) =>
      { name := "..." ++ name, type := extractTypeAnnotation ty, optional := false }
    | _ =>
      { name := "param" ++ toString ip.1, type := "any", optional := false }

/-- createFunctionData; source locations are not modelled, so the location
span takes the zero fallback of the source (loc or null). -/
def createFunctionData (name : String) (params : List Pat) (returnType : Option Ts)
    (async exported : Bool) (documentation : Option String) : FunctionData :=
  { name := name
    parameters := extractParameters params
    returnType := extractReturnType returnType
    location := ⟨0, 0, 0, 0⟩
    async := async
    exported := exported
    documentation := documentation }

/-! ## Ancestor-walk helpers (codeParser.ts)

A Babel NodePath is modelled as the visited node together with the list of
its ancestor nodes, innermost first.  The source distinguishes path objects
(which expose node and parent) from raw AST nodes (which expose neither);
the helpers below keep that distinction where the source depends on it. -/

def isExportDecl : Node → Bool
  | .exportNamedDeclaration _ _ => true
  | .exportDefaultDeclaration _ => true
  | _ => false

def isClassDeclarationNode : Node → Bool
  | .classDeclaration _ _ => true
  | _ => false

def isVariableDeclarationNode : Node → Bool
  | .variableDeclaration _ => true
  | _ => false

def isVariableDeclaratorNode : Node → Bool
  | .variableDeclarator _ _ => true
  | _ => false

/-- isExported applied to a NodePath: the path itself has a type (the
node's type), so the export check runs first on the node, then on the
parent node when the path has one. -/
def isExportedPath (n : Node) (ctx : List Node) : Bool :=
  if isExportDecl n then true
  else
    match ctx with
    | parent :: _ => isExportDecl parent
    | [] => false

/-- isExported applied to a raw AST node (the VariableDeclarator visitor
passes path.parent, a node): a raw node carries no parent pointer, so after
the self check the parent branch is skipped and the result is false. -/
def isExportedNode : Option Node → Bool
  | none => false
  | some n => isExportDecl n

/-- isClassExported walks upward with currentPath.parent.  The first step
inspects the path (whose node is the visited class method, never a class
declaration); the next value is a raw parent node, which has no node field
for the class test and no parent field, so the loop then stops.  The
function therefore returns true only when called on a path whose own node
is a class declaration, which the ClassMethod visitor never does. -/
def isClassExported (n : Node) (ctx : List Node) : Bool :=
  if isClassDeclarationNode n then isExportedPath n ctx else false

/-- getClassName: walk the path chain (the visited node first, then its
ancestors) for a named class declaration or class expression. -/
def getClassName : List Node → Option String
  | [] => none
  | n :: rest =>
    match n with
    | .classDeclaration (some id) _ => some id
    | .classExpression (some id) _ => some id
    | _ => getClassName rest

/-- getObjectName: the parent must be an object literal and the grandparent
a variable declarator with an identifier pattern. -/
def getObjectName : List Node → Option String
  | .objectExpression _ :: .variableDeclarator (.identPat vname _ _) _ :: _ => some vname
  | _ => none

def isFunctionLike : Node → Bool
  | .functionDeclaration _ _ _ _ _ => true
  | .functionExpression _ _ _ _ _ => true
  | .arrowFunctionExpression _ _ _ _ => true
  | .classMethod _ _ _ _ _ => true
  | .objectMethod _ _ _ _ _ => true
  | _ => false

/-- getFunctionName: named declarations use their own id; class and object
methods qualify with the owner found by the ancestor walks; every other
function-like node (and a declaration or method without an identifier
name) falls back to the name of a variable-declarator parent. -/
def getFunctionName (n : Node) (ctx : List Node) : Option String :=
  match n with
  | .functionDeclaration (some id) _ _ _ _ => some id
  | .classMethod (some key) _ _ _ _ =>
    match getClassName (n :: ctx) with
    | some className => some (className ++ "." ++ key)
    | none => some key
  | .objectMethod (some key) _ _ _ _ =>
    match getObjectName ctx with
    | some objectName => some (objectName ++ "." ++ key)
    | none => some key
  | _ =>
    match ctx with
    | .variableDeclarator (.identPat vname _ _) _ :: _ => some vname
    | _ => none

/-! ## The traversal

Babel traverses depth first, running enter handlers on a node before its
children and exit handlers after them.  The traversal of a tree is
linearized into a list of events; the two extraction passes are a map and a
fold over this list, which mirrors the order in which the source pushes
records. -/

inductive Event where
  | enter (n : Node) (ctx : List Node)
  | exit (n : Node)

/-- The children a node presents to the traversal, in visiting order.
Identifier children of declarations and parameter patterns host no visitor
of the source and are not listed. -/
def childrenOf : Node → List Node
  | .program body => body
  | .functionDeclaration _ _ _ _ body => body
  | .functionExpression _ _ _ _ body => body
  | .arrowFunctionExpression _ _ _ body => body
  | .variableDeclaration declarations => declarations
  | .variableDeclarator _ (some init) => [init]
  | .variableDeclarator _ none => []
  | .classDeclaration _ members => members
  | .classExpression _ members => members
  | .classMethod _ _ _ _ body => body
  | .objectExpression properties => properties
  | .objectMethod _ _ _ _ body => body
  | .objectProperty _ value => [value]
  | .callExpression callee args => callee :: args
  | .memberExpression object property => [object, property]
  | .thisExpression => []
  | .identifier _ => []
  | .exportNamedDeclaration (some declaration) _ => [declaration]
  | .exportNamedDeclaration none _ => []
  | .exportDefaultDeclaration declaration => [declaration]
  | .importDeclaration _ => []
  | .jsxElement _ attributes children => attributes ++ children
  | .jsxFragment children => children
  | .jsxAttribute _ (some value) => [value]
  | .jsxAttribute _ none => []
  | .jsxExpressionContainer expression => [expression]
  | .expressionStatement expression => [expression]
  | .returnStatement (some argument) => [argument]
  | .returnStatement none => []
  | .otherNode children => children

mutual
def eventsN (ctx : List Node) (n : Node) : List Event :=
  match n with
  | .program body =>
    .enter n ctx :: (eventsL (n :: ctx) body ++ [.exit n])
  | .functionDeclaration _ _ _ _ body =>
    .enter n ctx :: (eventsL (n :: ctx) body ++ [.exit n])
  | .functionExpression _ _ _ _ body =>
    .enter n ctx :: (eventsL (n :: ctx) body ++ [.exit n])
  | .arrowFunctionExpression _ _ _ body =>
    .enter n ctx :: (eventsL (n :: ctx) body ++ [.exit n])
  | .variableDeclaration declarations =>
    .enter n ctx :: (eventsL (n :: ctx) declarations ++ [.exit n])
  | .variableDeclarator _ (some init) =>
    .enter n ctx :: ((eventsN (n :: ctx) init ++ []) ++ [.exit n])
  | .variableDeclarator _ none =>
    .enter n ctx :: ([] ++ [.exit n])
  | .classDeclaration _ members =>
    .enter n ctx :: (eventsL (n :: ctx) members ++ [.exit n])
  | .classExpression _ members =>
    .enter n ctx :: (eventsL (n :: ctx) members ++ [.exit n])
  | .classMethod _ _ _ _ body =>
    .enter n ctx :: (eventsL (n :: ctx) body ++ [.exit n])
  | .objectExpression properties =>
    .enter n ctx :: (eventsL (n :: ctx) properties ++ [.exit n])
  | .objectMethod _ _ _ _ body =>
    .enter n ctx :: (eventsL (n :: ctx) body ++ [.exit n])
  | .objectProperty _ value =>
    .enter n ctx :: ((eventsN (n :: ctx) value ++ []) ++ [.exit n])
  | .callExpression callee args =>
    .enter n ctx :: ((eventsN (n :: ctx) callee ++ eventsL (n :: ctx) args) ++ [.exit n])
  | .memberExpression object property =>
    .enter n ctx :: ((eventsN (n :: ctx) object ++ (eventsN (n :: ctx) property ++ [])) ++ [.exit n])
  | .thisExpression => .enter n ctx :: ([] ++ [.exit n])
  | .identifier _ => .enter n ctx :: ([] ++ [.exit n])
  | .exportNamedDeclaration (some declaration) _ =>
    .enter n ctx :: ((eventsN (n :: ctx) declaration ++ []) ++ [.exit n])
  | .exportNamedDeclaration none _ => .enter n ctx :: ([] ++ [.exit n])
  | .exportDefaultDeclaration declaration =>
    .enter n ctx :: ((eventsN (n :: ctx) declaration ++ []) ++ [.exit n])
  | .importDeclaration _ => .enter n ctx :: ([] ++ [.exit n])
  | .jsxElement _ attributes children =>
    .enter n ctx :: ((eventsL (n :: ctx) attributes ++ eventsL (n :: ctx) children) ++ [.exit n])
  | .jsxFragment children =>
    .enter n ctx :: (eventsL (n :: ctx) children ++ [.exit n])
  | .jsxAttribute _ (some value) =>
    .enter n ctx :: ((eventsN (n :: ctx) value ++ []) ++ [.exit n])
  | .jsxAttribute _ none => .enter n ctx :: ([] ++ [.exit n])
  | .jsxExpressionContainer expression =>
    .enter n ctx :: ((eventsN (n :: ctx) expression ++ []) ++ [.exit n])
  | .expressionStatement expression =>
    .enter n ctx :: ((eventsN (n :: ctx) expression ++ []) ++ [.exit n])
  | .returnStatement (some argument) =>
    .enter n ctx :: ((eventsN (n :: ctx) argument ++ []) ++ [.exit n])
  | .returnStatement none => .enter n ctx :: ([] ++ [.exit n])
  | .otherNode children =>
    .enter n ctx :: (eventsL (n :: ctx) children ++ [.exit n])

def eventsL (ctx : List Node) : List Node → List Event
  | [] => []
  | c :: cs => eventsN ctx c ++ eventsL ctx cs
end

theorem eventsL_append (ctx : List Node) (l₁ l₂ : List Node) :
    eventsL ctx (l₁ ++ l₂) = eventsL ctx l₁ ++ eventsL ctx l₂ := by
  induction l₁ with
  | nil => simp [eventsL]
  | cons c cs ih => simp [eventsL, ih]

/-- Every node produces its enter event, the events of its children in
order, and its exit event. -/
theorem eventsN_eq (ctx : List Node) (n : Node) :
    eventsN ctx n = .enter n ctx :: (eventsL (n :: ctx) (childrenOf n) ++ [.exit n]) := by
  cases n <;> try rfl
  case variableDeclarator pid oinit => cases oinit <;> rfl
  case exportNamedDeclaration od sp => cases od <;> rfl
  case jsxAttribute nm ov => cases ov <;> rfl
  case returnStatement oa => cases oa <;> rfl
  case jsxElement t a c => simp [eventsN, eventsL, childrenOf, eventsL_append]

/-! ## extractFunctions (codeParser.ts) -/

def hookNames : List String :=
  ["useCallback", "useMemo", "useEffect", "useLayoutEffect", "useState", "useReducer"]

/-- The shape test shared by the callback and JSX visitors: an arrow
function expression or a function expression, together with its async
flag, parameters and return type annotation. -/
def functionArgParts : Node → Option (Bool × List Pat × Option Ts)
  | .arrowFunctionExpression a p r _ => some (a, p, r)
  | .functionExpression _ a p r _ => some (a, p, r)
  | _ => none

def isJsxElementOrFragment : Node → Bool
  | .jsxElement _ _ _ => true
  | .jsxFragment _ => true
  | _ => false

/-- The record or records one visited node contributes to extractFunctions,
one match arm per visitor of the source.  Leading comments are not
modelled, so the documentation argument takes the value extractJSDoc yields
on a comment-free node (none), except for JSX handlers where the source
passes the empty string. -/
def visitF (n : Node) (ctx : List Node) : List FunctionData :=
  match n with
  | .functionDeclaration (some name) async params returnType _ =>
    [createFunctionData name params returnType async (isExportedPath n ctx) none]
  | .variableDeclarator (.identPat vname _ _) (some (.functionExpression _ fasync params returnType _)) =>
    [createFunctionData vname params returnType fasync (isExportedNode ctx.head?) none]
  | .variableDeclarator (.identPat vname _ _) (some (.arrowFunctionExpression fasync params returnType _)) =>
    [createFunctionData vname params returnType fasync (isExportedNode ctx.head?) none]
  | .classMethod (some key) async params returnType _ =>
    let methodName :=
      match getClassName (n :: ctx) with
      | some className => className ++ "." ++ key
      | none => key
    [createFunctionData methodName params returnType async (isClassExported n ctx) none]
  | .objectMethod (some key) async params returnType _ =>
    let methodName :=
      match getObjectName ctx with
      | some objectName => objectName ++ "." ++ key
      | none => key
    [createFunctionData methodName params returnType async false none]
  | .callExpression callee args =>
    let isHook :=
      match callee with
      | .identifier calleeName => hookNames.contains calleeName
      | _ => false
    let isGenericCall :=
      match callee with
      | .identifier _ => true
      | .memberExpression _ _ => true
      | _ => false
    if (isHook || isGenericCall) && !args.isEmpty then
      match args.head? with
      | some firstArg =>
        match functionArgParts firstArg with
        | some (fasync, params, returnType) =>
          let functionName :=
            match callee with
            | .identifier calleeName =>
              if hookNames.contains calleeName then
                match ctx with
                | .variableDeclarator (.identPat vname _ _) _ :: _ =>
                  vname ++ " (" ++ calleeName ++ ")"
                | _ => "anonymous (" ++ calleeName ++ ")"
              else "callback (" ++ calleeName ++ ")"
            | .memberExpression object property =>
              let objectName := match object with | .identifier s => s | _ => "object"
              let propertyName := match property with | .identifier s => s | _ => "method"
              "callback (" ++ objectName ++ "." ++ propertyName ++ ")"
            | _ => "anonymous callback"
          [createFunctionData functionName params returnType fasync false none]
        | none => []
      | none => []
    else []
  | .jsxExpressionContainer expression =>
    match functionArgParts expression with
    | some (easync, params, returnType) =>
      let attrFallback :=
        match ctx.head? with
        | some (.jsxAttribute (some attrName) _) => attrName ++ " handler"
        | _ => "JSX event handler"
      let functionName :=
        match ctx.find? isJsxElementOrFragment, ctx.head? with
        | some (.jsxElement (some elementName) _ _), some (.jsxAttribute (some attrName) _) =>
          elementName ++ "." ++ attrName
        | _, _ => attrFallback
      [createFunctionData functionName params returnType easync false (some "")]
    | none => []
  | _ => []

def visitEvent : Event → List FunctionData
  | .enter n ctx => visitF n ctx
  | .exit _ => []

/-- extractFunctions: one traversal, collecting the visitor output of every
node in visiting order. -/
def extractFunctions (ast : Node) : List FunctionData :=
  ((eventsN [] ast).map visitEvent).flatten

/-- The list handed to extractFunctionCalls by parseTypeScriptCode. -/
def functionNames (ast : Node) : List String :=
  (extractFunctions ast).map (fun f => f.name)

/-! ## extractFunctionCalls (codeParser.ts) -/

/-- Resolution of a call target: a plain identifier, a this-qualified
member resolved through the enclosing class walk, or a member on an
identifier object. -/
def resolveCallee (callee : Node) (chain : List Node) : Option String :=
  match callee with
  | .identifier nm => some nm
  | .memberExpression object property =>
    match property with
    | .identifier propertyName =>
      match object with
      | .thisExpression =>
        match getClassName chain with
        | some className => some (className ++ "." ++ propertyName)
        | none => none
      | .identifier objectName => some (objectName ++ "." ++ propertyName)
      | _ => none
    | _ => none
  | _ => none

/-- One traversal event acting on the accumulated calls and the mutable
currentFunction slot: entering a function-like node overwrites the slot
when a name resolves (and leaves it unchanged otherwise), entering a call
expression records the call when the slot is occupied and the target
resolves to a known name, and exiting any function-like node resets the
slot to null. -/
def callsStep (names : List String) (acc : List FunctionCall × Option String)
    (e : Event) : List FunctionCall × Option String :=
  match e with
  | .enter n ctx =>
    let cur : Option String :=
      if isFunctionLike n then
        match getFunctionName n ctx with
        | some nm => some nm
        | none => acc.2
      else acc.2
    let emitted : List FunctionCall :=
      match n, cur with
      | .callExpression callee _, some currentFunction =>
        match resolveCallee callee (n :: ctx) with
        | some calledFunction =>
          if names.contains calledFunction then
            [{ caller := currentFunction, callee := calledFunction, lineNumber := 0 }]
          else []
        | none => []
      | _, _ => []
    (acc.1 ++ emitted, cur)
  | .exit n => (acc.1, if isFunctionLike n then none else acc.2)

/-- extractFunctionCalls: the second traversal, with the request-local
currentFunction slot initialized to null. -/
def extractFunctionCalls (ast : Node) (names : List String) : List FunctionCall :=
  ((eventsN [] ast).foldl (callsStep names) ([], none)).1

/-! ## extractImportsAndExports (codeParser.ts) -/

def declaratorName : Node → Option String
  | .variableDeclarator (.identPat vname _ _) _ => some vname
  | _ => none

def visitImport : Event → List String
  | .enter (.importDeclaration source) _ => [source]
  | _ => []

def visitExport : Event → List String
  | .enter (.exportNamedDeclaration declaration specifiers) _ =>
    (match declaration with
     | some (.functionDeclaration (some id) _ _ _ _) => [id]
     | some (.variableDeclaration declarations) => declarations.filterMap declaratorName
     | _ => []) ++ specifiers
  | .enter (.exportDefaultDeclaration declaration) _ =>
    match declaration with
    | .functionDeclaration (some id) _ _ _ _ => [id]
    | _ => ["default"]
  | _ => []

def extractImportsAndExports (ast : Node) : List String × List String :=
  (((eventsN [] ast).map visitImport).flatten, ((eventsN [] ast).map visitExport).flatten)

/-! ## parseTypeScriptCode (codeParser.ts)

The Babel parse calls are external; a ParserOracle gives, for each of the
three fallback configurations, the outcome of parsing a given source text.
Babel signals failure by throwing an Error, modelled as the error branch of
Except carrying the message. -/

structure BabelError where
  message : String
deriving DecidableEq, Repr

structure ParserOracle where
  tier1 : String → Except BabelError Node
  tier2 : String → Except BabelError Node
  tier3 : String → Except BabelError Node

/-- The three-tier fallback: full grammar, then no JSX, then minimal; the
first success wins and the failure of the third attempt propagates to the
surrounding catch. -/
def parseAst (p : ParserOracle) (code : String) : Except BabelError Node :=
  match p.tier1 code with
  | .ok ast => .ok ast
  | .error _ =>
    match p.tier2 code with
    | .ok ast => .ok ast
    | .error _ => p.tier3 code

/-- The catch block of parseTypeScriptCode: clean the message (the JSX
rewrite when an unexpected token mentions an angle bracket, the generic
syntax-error prefix otherwise) and attach line and column when the message
carries the parenthesized pair.  Oracle failures model thrown Error
instances, so the instanceof branch of the source always applies. -/
def mkSyntaxError (e : BabelError) : ParseError :=
  let cleanMessage :=
    if strIncludes e.message "Unexpected token" then
      if strIncludes e.message "<" then
        "JSX/TSX syntax detected but parsing failed. The file may contain invalid JSX syntax or unsupported React patterns."
      else "Syntax error: " ++ e.message
    else e.message
  let lc := extractLineCol e.message.data
  { type := ErrType.syntaxError
    message := cleanMessage
    line := lc.map (fun x => x.1)
    column := lc.map (fun x => x.2) }

/-- parseTypeScriptCode: validation of empty and oversized input before any
parse attempt, then the fallback parse, then the two extraction traversals
and the metadata summary; any parser failure is caught and recorded as a
single syntax error on an otherwise empty result. -/
def parseTypeScriptCode (p : ParserOracle) (code : String) : ParsedCodeResult :=
  if code = "" then
    { functions := [], calls := [],
      errors := [{ type := ErrType.validation, message := "No code provided for parsing" }] }
  else if code.length > 500 * 1024 then
    { functions := [], calls := [],
      errors := [{ type := ErrType.validation, message := "File too large for parsing (max 500KB)" }] }
  else
    match parseAst p code with
    | .error e =>
      { functions := [], calls := [], errors := [mkSyntaxError e] }
    | .ok ast =>
      let functions := extractFunctions ast
      let calls := extractFunctionCalls ast (functions.map (fun f => f.name))
      let ie := extractImportsAndExports ast
      { functions := functions
        calls := calls
        errors := []
        metadata := some
          { totalFunctions := functions.length
            totalCalls := calls.length
            imports := ie.1
            exports := ie.2 } }

/-! ## Graph builder (graphBuilder.ts) -/

def createNodeId (functionName : String) : String :=
  "node-" ++ sanitizeId functionName

def createEdgeId (source target : String) : String :=
  "edge-" ++ sanitizeId source ++ "-to-" ++ sanitizeId target

/-- The async-call heuristic: the callee name contains, case
insensitively, one of the async-suggesting substrings. -/
def asyncPatterns : List String := ["async", "fetch", "await", "promise", "then", "catch"]

def isAsyncCall (call : FunctionCall) : Bool :=
  asyncPatterns.any fun pattern => strIncludes (lowerStr call.callee) pattern

/-- Insertion into the relationship map: JavaScript Map preserves the
insertion order of keys, and pushes append to the list held at a key. -/
def groupInsert (groups : List (String × List FunctionCall)) (key : String)
    (call : FunctionCall) : List (String × List FunctionCall) :=
  match groups with
  | [] => [(key, [call])]
  | (k, cs) :: rest =>
    if k = key then (k, cs ++ [call]) :: rest
    else (k, cs) :: groupInsert rest key call

/-- groupCallsByRelationship: group by the string key of caller, arrow,
callee, preserving first-seen order of distinct keys. -/
def groupCallsByRelationship (calls : List FunctionCall) : List (String × List FunctionCall) :=
  calls.foldl (fun gs call => groupInsert gs (call.caller ++ " -> " ++ call.callee) call) []

/-- The internal edge-type tags of the source. -/
inductive EdgeTypeTag where
  | functionCallTag
  | asyncCallTag
  | multipleCallsTag
deriving DecidableEq, Repr

def getEdgeType : EdgeTypeTag → String
  | .asyncCallTag => "smoothstep"
  | .multipleCallsTag => "step"
  | .functionCallTag => "default"

/-- A React Flow edge, restricted to the fields the source sets from data
(the CSS style object is presentation only and not modelled). -/
structure GraphEdge where
  id : String
  source : String
  target : String
  type : String
  animated : Bool
  label : Option String
  callCount : Nat
  dataCalls : List FunctionCall
  dataIsAsync : Bool
deriving DecidableEq, Repr

/-- createFunctionEdges: one edge per relationship group; the caller and
callee are recovered by splitting the key on the arrow separator. -/
def createFunctionEdges (calls : List FunctionCall) : List GraphEdge :=
  (groupCallsByRelationship calls).map fun g =>
    let parts := splitStr g.1 " -> "
    let caller := (parts.get? 0).getD ""
    let callee := (parts.get? 1).getD ""
    let callList := g.2
    let callCount := callList.length
    let hasAsyncCall := callList.any isAsyncCall
    let edgeType :=
      if hasAsyncCall then EdgeTypeTag.asyncCallTag
      else if callCount > 1 then EdgeTypeTag.multipleCallsTag
      else EdgeTypeTag.functionCallTag
    { id := createEdgeId caller callee
      source := createNodeId caller
      target := createNodeId callee
      type := getEdgeType edgeType
      animated := hasAsyncCall
      label := if callCount > 1 then some (toString callCount ++ "x") else none
      callCount := callCount
      dataCalls := callList
      dataIsAsync := hasAsyncCall }

/-- A React Flow node as far as the graph transforms inspect it: the id and
the data fields the filters read. -/
structure GraphNodeData where
  label : String
  isExported : Bool
  isAsync : Bool
  complexity : Nat
deriving DecidableEq, Repr

structure GraphNode where
  id : String
  data : GraphNodeData
deriving DecidableEq, Repr

structure GraphData where
  nodes : List GraphNode
  edges : List GraphEdge
deriving DecidableEq, Repr

/-- simplifyGraph: keep the exported nodes and every node id that an edge
leaving an exported node points to, then drop all other nodes and every
edge with an endpoint outside the kept id set. -/
def simplifyGraph (g : GraphData) : GraphData :=
  let exportedNodes := g.nodes.filter fun n => n.data.isExported
  let exportedNodeIds := exportedNodes.map fun n => n.id
  let calledByExported :=
    (g.edges.filter fun e => exportedNodeIds.contains e.source).map fun e => e.target
  let relevantNodeIds := exportedNodeIds ++ calledByExported
  { nodes := g.nodes.filter fun n => relevantNodeIds.contains n.id
    edges := g.edges.filter fun e =>
      relevantNodeIds.contains e.source && relevantNodeIds.contains e.target }

/-! ## Layout engine (layoutEngine.ts)

Coordinates are rationals; the dagre layout algorithm and the cosine and
sine of the circular layout are external and appear as oracle parameters,
so every fact proved below holds for every behaviour of these externals. -/

inductive LayoutDirection where
  | TB | BT | LR | RL
deriving DecidableEq, Repr

structure LayoutOptions where
  direction : LayoutDirection
  nodeWidth : ℚ
  nodeHeight : ℚ
  rankSep : ℚ
  nodeSep : ℚ
deriving DecidableEq, Repr

def DEFAULT_LAYOUT_OPTIONS : LayoutOptions :=
  { direction := .TB, nodeWidth := 250, nodeHeight := 100, rankSep := 100, nodeSep := 50 }

/-- A partial options object; spreading it over the defaults keeps every
field the caller did not pass. -/
structure PartialLayoutOptions where
  direction : Option LayoutDirection := none
  nodeWidth : Option ℚ := none
  nodeHeight : Option ℚ := none
  rankSep : Option ℚ := none
  nodeSep : Option ℚ := none

def mergeOptions (base : LayoutOptions) (o : PartialLayoutOptions) : LayoutOptions :=
  { direction := o.direction.getD base.direction
    nodeWidth := o.nodeWidth.getD base.nodeWidth
    nodeHeight := o.nodeHeight.getD base.nodeHeight
    rankSep := o.rankSep.getD base.rankSep
    nodeSep := o.nodeSep.getD base.nodeSep }

/-- The data bag of a React Flow node as calculateNodeSize reads it; label
and returnType go through JavaScript truthiness, so a missing value and
the empty string behave alike. -/
structure LayoutNodeData where
  label : Option String := none
  parameters : Option (List FunctionParameter) := none
  returnType : Option String := none
  isAsync : Bool := false
  isExported : Bool := false
deriving DecidableEq, Repr

structure LayoutNode where
  id : String
  position : ℚ × ℚ
  data : Option LayoutNodeData
  styleWidth : Option ℚ := none
  styleHeight : Option ℚ := none
deriving DecidableEq, Repr

/-- calculateNodeSize: the content-driven width and height with the
configured bounds of the source file. -/
def calculateNodeSize (node : LayoutNode) (options : LayoutOptions) : ℚ × ℚ :=
  match node.data with
  | none => (options.nodeWidth, options.nodeHeight)
  | some data =>
    let width := options.nodeWidth
    let height := options.nodeHeight
    let width :=
      match data.label with
      | some l => if l ≠ "" then max width ((l.length : ℚ) * 8 + 40) else width
      | none => width
    let widthHeight :=
      match data.parameters with
      | some ps =>
        let paramCount := ps.length
        let longestParam := ps.foldl
          (fun (longest : ℚ) (param : FunctionParameter) =>
            let paramText := param.name ++ ": " ++ param.type
            if (paramText.length : ℚ) > longest then (paramText.length : ℚ) else longest)
          0
        let width := max width (longestParam * 7 + 40)
        let height := if paramCount > 0 then max height (60 + (paramCount : ℚ) * 20) else height
        (width, height)
      | none => (width, height)
    let width := widthHeight.1
    let height := widthHeight.2
    let width :=
      match data.returnType with
      | some rt => if rt ≠ "" ∧ rt ≠ "any" then max width ((rt.length : ℚ) * 8 + 80) else width
      | none => width
    let width := if data.isAsync then width + 60 else width
    let width := if data.isExported then width + 60 else width
    (min (max width 150) 400, min (max height 80) 300)

/-- The graph configuration handed to dagre. -/
structure DagreConfig where
  rankdir : LayoutDirection
  ranksep : ℚ
  nodesep : ℚ
  marginx : ℚ
  marginy : ℚ
deriving DecidableEq, Repr

/-- The external dagre layout: from the configuration, the sized nodes and
the edges, a position for each node id. -/
def DagreOracle : Type :=
  DagreConfig → List (String × ℚ × ℚ) → List (String × String) → String → ℚ × ℚ

/-- Reading graph.node(id) back after layout: dagre keeps the width and
height that setNode stored (a repeated setNode on the same id overwrites,
so the last write wins); layoutNodes only reads ids it has set. -/
def dagreSize (sizes : List (String × ℚ × ℚ)) (id : String) : ℚ × ℚ :=
  match sizes.reverse.find? (fun s => s.1 = id) with
  | some s => (s.2.1, s.2.2)
  | none => (0, 0)

/-- layoutNodes: size every node, hand nodes and edges to dagre, then give
every node the dagre position shifted from center to corner and the stored
size on its style. -/
def layoutNodes (dg : DagreOracle) (nodes : List LayoutNode) (edges : List GraphEdge)
    (options : PartialLayoutOptions) : List LayoutNode :=
  let layoutOpts := mergeOptions DEFAULT_LAYOUT_OPTIONS options
  let sizes := nodes.map fun n =>
    let wh := calculateNodeSize n layoutOpts
    (n.id, wh.1, wh.2)
  let edgePairs := edges.map fun e => (e.source, e.target)
  let config : DagreConfig :=
    { rankdir := layoutOpts.direction, ranksep := layoutOpts.rankSep,
      nodesep := layoutOpts.nodeSep, marginx := 20, marginy := 20 }
  nodes.map fun node =>
    let wh := dagreSize sizes node.id
    let xy := dg config sizes edgePairs node.id
    { node with
      position := (xy.1 - wh.1 / 2, xy.2 - wh.2 / 2)
      styleWidth := some wh.1
      styleHeight := some wh.2 }

def createHierarchicalLayout (dg : DagreOracle) (nodes : List LayoutNode)
    (edges : List GraphEdge) : List LayoutNode :=
  layoutNodes dg nodes edges
    { direction := some .TB, rankSep := some 120, nodeSep := some 80 }

def createHorizontalLayout (dg : DagreOracle) (nodes : List LayoutNode)
    (edges : List GraphEdge) : List LayoutNode :=
  layoutNodes dg nodes edges
    { direction := some .LR, rankSep := some 150, nodeSep := some 100 }

/-- The cosine and sine of the angle of node number index out of count
(two pi times index over count), as an oracle. -/
def TrigOracle : Type := Nat → Nat → ℚ × ℚ

/-- createCircularLayout: at most one node goes to the origin, up to six
nodes go on a circle whose radius grows with the node count, and larger
graphs fall back to the hierarchical layout. -/
def createCircularLayout (tr : TrigOracle) (dg : DagreOracle) (nodes : List LayoutNode)
    (edges : List GraphEdge) : List LayoutNode :=
  if nodes.length ≤ 1 then
    nodes.map fun node => { node with position := (0, 0) }
  else if nodes.length ≤ 6 then
    let centerX : ℚ := 200
    let centerY : ℚ := 200
    let radius : ℚ := max 100 ((nodes.length : ℚ) * 30)
    nodes.enum.map fun indexNode =>
      let cs := tr indexNode.1 nodes.length
      { indexNode.2 with
        position := (centerX + radius * cs.1 - 125, centerY + radius * cs.2 - 50) }
  else createHierarchicalLayout dg nodes edges

/-- autoLayout of the layout engine module: empty input unchanged, a single
node at the fixed coordinate, circular for small graphs, horizontal for
sparse wide graphs, hierarchical otherwise. -/
def autoLayout (tr : TrigOracle) (dg : DagreOracle) (nodes : List LayoutNode)
    (edges : List GraphEdge) : List LayoutNode :=
  let nodeCount := nodes.length
  let edgeCount := edges.length
  if nodeCount = 0 then nodes
  else if nodeCount = 1 then
    match nodes with
    | [n] => [{ n with position := (200, 200) }]
    | _ => nodes
  else if nodeCount ≤ 6 ∧ edgeCount ≤ 8 then
    createCircularLayout tr dg nodes edges
  else
    let avgConnectionsPerNode : ℚ := (edgeCount : ℚ) / (nodeCount : ℚ)
    if avgConnectionsPerNode < 1.5 ∧ nodeCount > 8 then
      createHorizontalLayout dg nodes edges
    else createHierarchicalLayout dg nodes edges

/-- The algorithm autoLayout dispatches to, as a function of the node and
edge counts alone (the branch conditions of the source read nothing else).
The grid constructor exists so that the automatic-selection sentence of the
specification can be stated against this module; no branch produces it. -/
inductive LayoutChoice where
  | noopChoice
  | singleFixed
  | circularChoice
  | horizontalChoice
  | hierarchicalChoice
  | gridChoice
deriving DecidableEq, Repr

def autoLayoutChoice (nodeCount edgeCount : Nat) : LayoutChoice :=
  if nodeCount = 0 then .noopChoice
  else if nodeCount = 1 then .singleFixed
  else if nodeCount ≤ 6 ∧ edgeCount ≤ 8 then .circularChoice
  else if ((edgeCount : ℚ) / (nodeCount : ℚ) < 1.5 ∧ nodeCount > 8) then .horizontalChoice
  else .hierarchicalChoice

/-- The automatic selection as the specification sentence states it: zero
nodes no-op, one node fixed placement, otherwise the grid layout.  Stated
from the words of the specification, for comparison with autoLayoutChoice
which is read off the source. -/
def specAutoLayoutChoice (nodeCount : Nat) : LayoutChoice :=
  if nodeCount = 0 then .noopChoice
  else if nodeCount = 1 then .singleFixed
  else .gridChoice

/-- autoLayout dispatches exactly as autoLayoutChoice says. -/
theorem autoLayout_dispatch (tr : TrigOracle) (dg : DagreOracle)
    (nodes : List LayoutNode) (edges : List GraphEdge) :
    autoLayout tr dg nodes edges =
      match autoLayoutChoice nodes.length edges.length with
      | .noopChoice => nodes
      | .singleFixed =>
        (match nodes with
         | [n] => [{ n with position := (200, 200) }]
         | _ => nodes)
      | .circularChoice => createCircularLayout tr dg nodes edges
      | .horizontalChoice => createHorizontalLayout dg nodes edges
      | .hierarchicalChoice => createHierarchicalLayout dg nodes edges
      | .gridChoice => nodes := by
  unfold autoLayout autoLayoutChoice
  by_cases h0 : nodes.length = 0 <;> simp [h0]
  by_cases h1 : nodes.length = 1 <;> simp [h1]
  by_cases h6 : nodes.length ≤ 6 ∧ edges.length ≤ 8 <;> simp [h6]
  by_cases hs : ((edges.length : ℚ) / (nodes.length : ℚ) < 1.5 ∧ nodes.length > 8) <;>
    simp [hs]

/-! ## Well-formedness of syntax trees

The Node type is wider than what the Babel parser can produce.  The two
local shape conditions below hold of every parser-produced tree and are
the only ones the theorems need: the initializer of a variable declarator
is an expression (so a function-like initializer is a function expression
or an arrow function, never a declaration or a class member), and
variable declarators occur only as children of a variable declaration. -/

def isFunctionOrArrowExpression : Node → Bool
  | .functionExpression _ _ _ _ _ => true
  | .arrowFunctionExpression _ _ _ _ => true
  | _ => false

def localWf (n : Node) : Bool :=
  (match n with
   | .variableDeclarator _ (some init) =>
     !(isFunctionLike init) || isFunctionOrArrowExpression init
   | _ => true)
  && ((childrenOf n).all fun c =>
       !(isVariableDeclaratorNode c) || isVariableDeclarationNode n)

def WfB (ast : Node) : Bool :=
  (eventsN [] ast).all fun e =>
    match e with
    | .enter n _ => localWf n
    | .exit _ => true

theorem localWf_of_enter {ast n : Node} {ctx : List Node}
    (hwf : WfB ast = true) (hmem : Event.enter n ctx ∈ eventsN [] ast) :
    localWf n = true := by
  have := List.all_eq_true.mp hwf _ hmem
  simpa using this

/-! ## The parent of an enter event

Every enter event with a nonempty context arises while traversing the
children of the context head, which therefore has its own enter event in
the same traversal. -/

def NP (ctx0 : List Node) (m : Node) : Prop :=
  ∀ n p rest, Event.enter n (p :: rest) ∈ eventsN ctx0 m →
    (n = m ∧ p :: rest = ctx0) ∨
    (Event.enter p rest ∈ eventsN ctx0 m ∧ n ∈ childrenOf p)

def LP (ctx0 : List Node) (ms : List Node) : Prop :=
  ∀ n p rest, Event.enter n (p :: rest) ∈ eventsL ctx0 ms →
    (n ∈ ms ∧ p :: rest = ctx0) ∨
    (Event.enter p rest ∈ eventsL ctx0 ms ∧ n ∈ childrenOf p)

theorem LP_nil (ctx0 : List Node) : LP ctx0 [] := by
  intro n p rest h
  simp [eventsL] at h

theorem LP_cons {ctx0 : List Node} {c : Node} {cs : List Node}
    (hc : NP ctx0 c) (hcs : LP ctx0 cs) : LP ctx0 (c :: cs) := by
  intro n p rest h
  rw [show eventsL ctx0 (c :: cs) = eventsN ctx0 c ++ eventsL ctx0 cs from rfl,
    List.mem_append] at h
  rcases h with h | h
  · rcases hc n p rest h with ⟨hn, hctx⟩ | ⟨hmem, hchild⟩
    · exact Or.inl ⟨by simp [hn], hctx⟩
    · exact Or.inr ⟨by
        rw [show eventsL ctx0 (c :: cs) = eventsN ctx0 c ++ eventsL ctx0 cs from rfl,
          List.mem_append]
        exact Or.inl hmem, hchild⟩
  · rcases hcs n p rest h with ⟨hn, hctx⟩ | ⟨hmem, hchild⟩
    · exact Or.inl ⟨List.mem_cons_of_mem _ hn, hctx⟩
    · exact Or.inr ⟨by
        rw [show eventsL ctx0 (c :: cs) = eventsN ctx0 c ++ eventsL ctx0 cs from rfl,
          List.mem_append]
        exact Or.inr hmem, hchild⟩

theorem LP_append {ctx0 : List Node} {l₁ l₂ : List Node}
    (h₁ : LP ctx0 l₁) (h₂ : LP ctx0 l₂) : LP ctx0 (l₁ ++ l₂) := by
  intro n p rest h
  rw [eventsL_append, List.mem_append] at h
  rcases h with h | h
  · rcases h₁ n p rest h with ⟨hn, hctx⟩ | ⟨hmem, hchild⟩
    · exact Or.inl ⟨List.mem_append_left _ hn, hctx⟩
    · exact Or.inr ⟨by rw [eventsL_append, List.mem_append]; exact Or.inl hmem, hchild⟩
  · rcases h₂ n p rest h with ⟨hn, hctx⟩ | ⟨hmem, hchild⟩
    · exact Or.inl ⟨List.mem_append_right _ hn, hctx⟩
    · exact Or.inr ⟨by rw [eventsL_append, List.mem_append]; exact Or.inr hmem, hchild⟩

theorem NP_of_LP {ctx0 : List Node} {m : Node}
    (h : LP (m :: ctx0) (childrenOf m)) : NP ctx0 m := by
  intro n p rest hmem
  rw [eventsN_eq] at hmem
  rcases List.mem_cons.mp hmem with heq | hmem2
  · cases heq
    exact Or.inl ⟨rfl, rfl⟩
  · rcases List.mem_append.mp hmem2 with hmem3 | hlast
    · rcases h n p rest hmem3 with ⟨hn, hctx⟩ | ⟨hpmem, hchild⟩
      · obtain ⟨hp, hrest⟩ : p = m ∧ rest = ctx0 := by
          injection hctx with h1 h2; exact ⟨h1, h2⟩
        subst hp; subst hrest
        exact Or.inr ⟨by rw [eventsN_eq]; exact List.mem_cons_self _ _, hn⟩
      · exact Or.inr ⟨by
          rw [eventsN_eq]
          exact List.mem_cons_of_mem _ (List.mem_append_left _ hpmem), hchild⟩
    · simp at hlast

mutual
theorem NP_all : ∀ (ctx0 : List Node) (m : Node), NP ctx0 m
  | _, .program body => NP_of_LP (LP_all _ body)
  | _, .functionDeclaration _ _ _ _ body => NP_of_LP (LP_all _ body)
  | _, .functionExpression _ _ _ _ body => NP_of_LP (LP_all _ body)
  | _, .arrowFunctionExpression _ _ _ body => NP_of_LP (LP_all _ body)
  | _, .variableDeclaration declarations => NP_of_LP (LP_all _ declarations)
  | _, .variableDeclarator _ (some init) => NP_of_LP (LP_cons (NP_all _ init) (LP_nil _))
  | _, .variableDeclarator _ none => NP_of_LP (LP_nil _)
  | _, .classDeclaration _ members => NP_of_LP (LP_all _ members)
  | _, .classExpression _ members => NP_of_LP (LP_all _ members)
  | _, .classMethod _ _ _ _ body => NP_of_LP (LP_all _ body)
  | _, .objectExpression properties => NP_of_LP (LP_all _ properties)
  | _, .objectMethod _ _ _ _ body => NP_of_LP (LP_all _ body)
  | _, .objectProperty _ value => NP_of_LP (LP_cons (NP_all _ value) (LP_nil _))
  | _, .callExpression callee args => NP_of_LP (LP_cons (NP_all _ callee) (LP_all _ args))
  | _, .memberExpression object property =>
    NP_of_LP (LP_cons (NP_all _ object) (LP_cons (NP_all _ property) (LP_nil _)))
  | _, .thisExpression => NP_of_LP (LP_nil _)
  | _, .identifier _ => NP_of_LP (LP_nil _)
  | _, .exportNamedDeclaration (some declaration) _ =>
    NP_of_LP (LP_cons (NP_all _ declaration) (LP_nil _))
  | _, .exportNamedDeclaration none _ => NP_of_LP (LP_nil _)
  | _, .exportDefaultDeclaration declaration =>
    NP_of_LP (LP_cons (NP_all _ declaration) (LP_nil _))
  | _, .importDeclaration _ => NP_of_LP (LP_nil _)
  | _, .jsxElement _ attributes children =>
    NP_of_LP (LP_append (LP_all _ attributes) (LP_all _ children))
  | _, .jsxFragment children => NP_of_LP (LP_all _ children)
  | _, .jsxAttribute _ (some value) => NP_of_LP (LP_cons (NP_all _ value) (LP_nil _))
  | _, .jsxAttribute _ none => NP_of_LP (LP_nil _)
  | _, .jsxExpressionContainer expression =>
    NP_of_LP (LP_cons (NP_all _ expression) (LP_nil _))
  | _, .expressionStatement expression =>
    NP_of_LP (LP_cons (NP_all _ expression) (LP_nil _))
  | _, .returnStatement (some argument) =>
    NP_of_LP (LP_cons (NP_all _ argument) (LP_nil _))
  | _, .returnStatement none => NP_of_LP (LP_nil _)
  | _, .otherNode children => NP_of_LP (LP_all _ children)

theorem LP_all : ∀ (ctx0 : List Node) (ms : List Node), LP ctx0 ms
  | ctx0, [] => LP_nil ctx0
  | ctx0, c :: cs => LP_cons (NP_all ctx0 c) (LP_all ctx0 cs)
end

/-! ## Membership in extractFunctions -/

theorem mem_extractFunctions_of_visit {ast n : Node} {ctx : List Node} {r : FunctionData}
    (hmem : Event.enter n ctx ∈ eventsN [] ast) (hr : r ∈ visitF n ctx) :
    r ∈ extractFunctions ast := by
  unfold extractFunctions
  rw [List.mem_flatten]
  exact ⟨visitF n ctx, List.mem_map.mpr ⟨Event.enter n ctx, hmem, rfl⟩, hr⟩

theorem mem_extractFunctions_elim {ast : Node} {r : FunctionData}
    (hr : r ∈ extractFunctions ast) :
    ∃ n ctx, Event.enter n ctx ∈ eventsN [] ast ∧ r ∈ visitF n ctx := by
  unfold extractFunctions at hr
  rw [List.mem_flatten] at hr
  obtain ⟨l, hl, hrl⟩ := hr
  obtain ⟨e, he, rfl⟩ := List.mem_map.mp hl
  cases e with
  | enter n ctx => exact ⟨n, ctx, he, hrl⟩
  | exit n => simp [visitEvent] at hrl

theorem name_mem_functionNames {ast : Node} {r : FunctionData}
    (hr : r ∈ extractFunctions ast) : r.name ∈ functionNames ast :=
  List.mem_map.mpr ⟨r, hr, rfl⟩

/-! ## Every name the call extractor can install is a known function name -/

/-- The fallback branch of getFunctionName, as a standalone function for
case analysis: the name of a variable-declarator parent when there is one. -/
def fallbackName : List Node → Option String
  | .variableDeclarator (.identPat vname _ _) _ :: _ => some vname
  | _ => none

/-- When a function-like node resolves its name through the
variable-declarator parent, that declarator records a function of the same
name (its initializer must be the visited node, which well-formedness
forces into one of the two expression forms the visitor accepts). -/
theorem fallback_name_mem {ast n : Node} {ctx : List Node} {nm : String}
    (hwf : WfB ast = true) (hmem : Event.enter n ctx ∈ eventsN [] ast)
    (hfl : isFunctionLike n = true)
    (hgf : fallbackName ctx = some nm) :
    nm ∈ functionNames ast := by
  unfold fallbackName at hgf
  split at hgf
  case h_2 => exact absurd hgf (by simp)
  case h_1 _ vname opt ty oinit rest =>
    obtain rfl : vname = nm := by injection hgf
    rcases NP_all [] ast n _ rest hmem with ⟨_, habs⟩ | ⟨hpmem, hchild⟩
    · exact absurd habs (by simp)
    · have hinit : oinit = some n := by
        cases oinit with
        | none => simp [childrenOf] at hchild
        | some init =>
          simp [childrenOf] at hchild
          rw [hchild]
      subst hinit
      have hl := localWf_of_enter hwf hpmem
      have hshape : isFunctionOrArrowExpression n = true := by
        simp [localWf] at hl
        rcases hl.1 with h | h
        · rw [h] at hfl; cases hfl
        · exact h
      cases n with
      | functionExpression fid fasync params returnType body =>
        have hv : createFunctionData vname params returnType fasync
            (isExportedNode rest.head?) none ∈
            visitF (Node.variableDeclarator (Pat.identPat vname opt ty)
              (some (Node.functionExpression fid fasync params returnType body))) rest := by
          simp [visitF]
        have := mem_extractFunctions_of_visit hpmem hv
        simpa using name_mem_functionNames this
      | arrowFunctionExpression fasync params returnType body =>
        have hv : createFunctionData vname params returnType fasync
            (isExportedNode rest.head?) none ∈
            visitF (Node.variableDeclarator (Pat.identPat vname opt ty)
              (some (Node.arrowFunctionExpression fasync params returnType body))) rest := by
          simp [visitF]
        have := mem_extractFunctions_of_visit hpmem hv
        simpa using name_mem_functionNames this
      | _ => simp [isFunctionOrArrowExpression] at hshape

theorem name_in_functions {ast n : Node} {ctx : List Node} {nm : String}
    (hwf : WfB ast = true) (hmem : Event.enter n ctx ∈ eventsN [] ast)
    (hfl : isFunctionLike n = true) (hname : getFunctionName n ctx = some nm) :
    nm ∈ functionNames ast := by
  cases n with
  | functionDeclaration oid async params returnType body =>
    cases oid with
    | some id =>
      have hid : id = nm := by simpa [getFunctionName] using hname
      rw [← hid]
      have hv : createFunctionData id params returnType async
          (isExportedPath (Node.functionDeclaration (some id) async params returnType body) ctx)
          none ∈ visitF (Node.functionDeclaration (some id) async params returnType body) ctx := by
        simp [visitF]
      simpa using name_mem_functionNames (mem_extractFunctions_of_visit hmem hv)
    | none =>
      exact fallback_name_mem hwf hmem hfl (by simpa [getFunctionName, fallbackName] using hname)
  | classMethod okey async params returnType body =>
    cases okey with
    | some key =>
      have hv : createFunctionData
          (match getClassName (Node.classMethod (some key) async params returnType body :: ctx) with
           | some className => className ++ "." ++ key
           | none => key) params returnType async
          (isClassExported (Node.classMethod (some key) async params returnType body) ctx) none ∈
          visitF (Node.classMethod (some key) async params returnType body) ctx := by
        simp [visitF]
      have hnm : nm = (match getClassName (Node.classMethod (some key) async params returnType body :: ctx) with
          | some className => className ++ "." ++ key
          | none => key) := by
        simp only [getFunctionName] at hname
        cases h : getClassName (Node.classMethod (some key) async params returnType body :: ctx) <;>
          rw [h] at hname <;> simp at hname <;> simp [hname]
      rw [hnm]
      simpa using name_mem_functionNames (mem_extractFunctions_of_visit hmem hv)
    | none =>
      exact fallback_name_mem hwf hmem hfl (by simpa [getFunctionName, fallbackName] using hname)
  | objectMethod okey async params returnType body =>
    cases okey with
    | some key =>
      have hv : createFunctionData
          (match getObjectName ctx with
           | some objectName => objectName ++ "." ++ key
           | none => key) params returnType async false none ∈
          visitF (Node.objectMethod (some key) async params returnType body) ctx := by
        simp [visitF]
      have hnm : nm = (match getObjectName ctx with
          | some objectName => objectName ++ "." ++ key
          | none => key) := by
        simp only [getFunctionName] at hname
        cases h : getObjectName ctx <;> rw [h] at hname <;> simp at hname <;> simp [hname]
      rw [hnm]
      simpa using name_mem_functionNames (mem_extractFunctions_of_visit hmem hv)
    | none =>
      exact fallback_name_mem hwf hmem hfl (by simpa [getFunctionName, fallbackName] using hname)
  | functionExpression fid fasync params returnType body =>
    exact fallback_name_mem hwf hmem hfl (by simpa [getFunctionName, fallbackName] using hname)
  | arrowFunctionExpression fasync params returnType body =>
    exact fallback_name_mem hwf hmem hfl (by simpa [getFunctionName, fallbackName] using hname)
  | program body => simp [isFunctionLike] at hfl
  | variableDeclaration d => simp [isFunctionLike] at hfl
  | variableDeclarator a b => simp [isFunctionLike] at hfl
  | classDeclaration a b => simp [isFunctionLike] at hfl
  | classExpression a b => simp [isFunctionLike] at hfl
  | objectExpression a => simp [isFunctionLike] at hfl
  | objectProperty a b => simp [isFunctionLike] at hfl
  | callExpression a b => simp [isFunctionLike] at hfl
  | memberExpression a b => simp [isFunctionLike] at hfl
  | thisExpression => simp [isFunctionLike] at hfl
  | identifier a => simp [isFunctionLike] at hfl
  | exportNamedDeclaration a b => simp [isFunctionLike] at hfl
  | exportDefaultDeclaration a => simp [isFunctionLike] at hfl
  | importDeclaration a => simp [isFunctionLike] at hfl
  | jsxElement a b c => simp [isFunctionLike] at hfl
  | jsxFragment a => simp [isFunctionLike] at hfl
  | jsxAttribute a b => simp [isFunctionLike] at hfl
  | jsxExpressionContainer a => simp [isFunctionLike] at hfl
  | expressionStatement a => simp [isFunctionLike] at hfl
  | returnStatement a => simp [isFunctionLike] at hfl
  | otherNode a => simp [isFunctionLike] at hfl

/-! ## The fold invariant of the call extractor -/

def EnterOk (names : List String) : Event → Prop
  | .enter n ctx => isFunctionLike n = true → ∀ nm, getFunctionName n ctx = some nm → nm ∈ names
  | .exit _ => True

def StOk (names : List String) (st : Option String) : Prop :=
  ∀ nm, st = some nm → nm ∈ names

def CallOk (names : List String) (c : FunctionCall) : Prop :=
  c.caller ∈ names ∧ c.callee ∈ names

theorem callsStep_ok {names : List String} {acc : List FunctionCall} {st : Option String}
    {e : Event} (he : EnterOk names e)
    (hacc : ∀ c ∈ acc, CallOk names c) (hst : StOk names st) :
    (∀ c ∈ (callsStep names (acc, st) e).1, CallOk names c) ∧
      StOk names (callsStep names (acc, st) e).2 := by
  cases e with
  | exit n =>
    refine ⟨hacc, ?_⟩
    simp only [callsStep]
    by_cases h : isFunctionLike n
    · simp only [h, if_true]
      intro nm hnm
      cases hnm
    · simpa [h] using hst
  | enter n ctx =>
    have hcur : StOk names (if isFunctionLike n then
        match getFunctionName n ctx with
        | some nm => some nm
        | none => st
      else st) := by
      by_cases hfl : isFunctionLike n
      · simp only [hfl, if_true]
        cases hgf : getFunctionName n ctx with
        | some nm =>
          intro nm' h
          obtain rfl : nm = nm' := by injection h
          exact he hfl nm hgf
        | none => exact hst
      · simpa [hfl] using hst
    refine ⟨?_, hcur⟩
    intro c hc
    simp only [callsStep] at hc
    rcases List.mem_append.mp hc with h | h
    · exact hacc c h
    · revert h
      split
      next callee args currentFunction heq =>
        intro h
        revert h
        split
        next calledFunction hres =>
          by_cases hin : names.contains calledFunction = true
          · simp only [hin, if_true]
            intro h
            rcases List.mem_singleton.mp h with rfl
            refine ⟨hcur currentFunction heq, ?_⟩
            simpa using hin
          · intro h
            rw [if_neg hin] at h
            cases h
        next => simp
      next => simp

theorem foldCalls_ok : ∀ (evs : List Event) (names : List String)
    (acc : List FunctionCall) (st : Option String),
    (∀ e ∈ evs, EnterOk names e) →
    (∀ c ∈ acc, CallOk names c) → StOk names st →
    ∀ c ∈ (evs.foldl (callsStep names) (acc, st)).1, CallOk names c := by
  intro evs
  induction evs with
  | nil =>
    intro names acc st _ hacc _ c hc
    exact hacc c hc
  | cons e rest ih =>
    intro names acc st hev hacc hst c
    have hstep := callsStep_ok (hev e (List.mem_cons_self _ _)) hacc hst
    rw [List.foldl_cons]
    intro hc
    have := ih names (callsStep names (acc, st) e).1 (callsStep names (acc, st) e).2
      (fun e' he' => hev e' (List.mem_cons_of_mem _ he')) hstep.1 hstep.2
    exact this c (by simpa using hc)

/-! ## Concrete syntax trees used by the claims -/

/-- function hello(name: string): string with a body returning the
parameter, and function caller calling hello twice (the scenario of the
specification). -/
def helloCallerAst : Node :=
  .program
    [ .functionDeclaration (some "hello") false [.identPat "name" false (some .strTy)]
        (some .strTy) [.returnStatement (some (.identifier "name"))]
    , .functionDeclaration (some "caller") false [] none
        [ .expressionStatement (.callExpression (.identifier "hello") [.otherNode []])
        , .expressionStatement (.callExpression (.identifier "hello") [.otherNode []]) ] ]

/-- function outer containing first a nested function inner and then a
call of target, plus function target: the call occurs after the nested
definition. -/
def nestedAfterAst : Node :=
  .program
    [ .functionDeclaration (some "outer") false [] none
        [ .functionDeclaration (some "inner") false [] none []
        , .expressionStatement (.callExpression (.identifier "target") []) ]
    , .functionDeclaration (some "target") false [] none [] ]

/-- function outer calling target before defining the nested function
inner, which itself calls target. -/
def nestedBeforeAst : Node :=
  .program
    [ .functionDeclaration (some "outer") false [] none
        [ .expressionStatement (.callExpression (.identifier "target") [])
        , .functionDeclaration (some "inner") false [] none
            [ .expressionStatement (.callExpression (.identifier "target") []) ] ]
    , .functionDeclaration (some "target") false [] none [] ]

/-- export const f = () => \x7b\x7d -/
def exportConstArrowAst : Node :=
  .program
    [ .exportNamedDeclaration
        (some (.variableDeclaration
          [.variableDeclarator (.identPat "f" false none)
            (some (.arrowFunctionExpression false [] none []))])) [] ]

/-- export function g() \x7b\x7d -/
def exportFunctionAst : Node :=
  .program
    [ .exportNamedDeclaration
        (some (.functionDeclaration (some "g") false [] none [])) [] ]

/-- export class C with a method m -/
def exportClassAst : Node :=
  .program
    [ .exportNamedDeclaration
        (some (.classDeclaration (some "C")
          [.classMethod (some "m") false [] none []])) [] ]

/-! ## Claim C4 -/

/-- Claim C4: for every well-formed syntax tree, every call record of the
second traversal (run against the names of the first) has a caller and a
callee that are both names of extracted functions; and the same pair can
be recorded more than once, as the concrete two-call scenario shows. -/
theorem c4_call_records :
    (∀ (ast : Node) (c : FunctionCall), WfB ast = true →
      c ∈ extractFunctionCalls ast (functionNames ast) →
      c.caller ∈ functionNames ast ∧ c.callee ∈ functionNames ast)
    ∧ extractFunctionCalls helloCallerAst (functionNames helloCallerAst) =
        [⟨"caller", "hello", 0⟩, ⟨"caller", "hello", 0⟩] := by
  constructor
  · intro ast c hwf hc
    refine foldCalls_ok (eventsN [] ast) (functionNames ast) [] none ?_ (by simp)
      (fun nm h => by cases h) c hc
    intro e he
    cases e with
    | enter n ctx => exact fun hfl nm hgf => name_in_functions hwf he hfl hgf
    | exit n => trivial
  · rfl

/-- Witness for C4 at the concrete two-call scenario. -/
theorem c4_call_records_witness :
    "caller" ∈ functionNames helloCallerAst ∧ "hello" ∈ functionNames helloCallerAst := by
  have h := c4_call_records.1 helloCallerAst ⟨"caller", "hello", 0⟩ (by decide)
    (by rw [c4_call_records.2]; simp)
  simpa using h

/-! ## Claim C1 -/

/-- Counterexample to claim C1: the claim says the current-function slot is
restored when a nested function exits, so that the later call of target
inside outer is still attributed to outer.  On this tree the extractor
records no call at all, although target resolves and is a known name:
exiting the nested function inner clears the slot to null instead of
restoring outer. -/
theorem c1_counterexample :
    functionNames nestedAfterAst = ["outer", "inner", "target"] ∧
    extractFunctionCalls nestedAfterAst (functionNames nestedAfterAst) = [] := by
  constructor <;> rfl

/-- Claim C1 as amended: the slot is set to the resolved name when a
function-like node with a resolvable name is entered and is cleared to
null, not restored, when any function-like node exits.  Calls inside a
nested function are attributed to the innermost named function, and calls
appearing in the enclosing function before any nested function are
attributed to the enclosing function, but calls appearing after a nested
function are dropped. -/
theorem c1_amended :
    (∀ (names : List String) (acc : List FunctionCall) (st : Option String) (n : Node),
      isFunctionLike n = true → (callsStep names (acc, st) (Event.exit n)).2 = none)
    ∧ extractFunctionCalls nestedBeforeAst (functionNames nestedBeforeAst) =
        [⟨"outer", "target", 0⟩, ⟨"inner", "target", 0⟩]
    ∧ extractFunctionCalls nestedAfterAst (functionNames nestedAfterAst) = [] := by
  refine ⟨?_, rfl, rfl⟩
  intro names acc st n hfl
  simp [callsStep, hfl]

/-- Witness for the amended claim C1: clearing on exit at a concrete
function-like node and slot value. -/
theorem c1_amended_witness :
    (callsStep [] ([], some "outer")
      (Event.exit (Node.functionDeclaration (some "inner") false [] none []))).2 = none :=
  c1_amended.1 [] [] (some "outer") _ rfl


/-! ## Claim C2 -/

/-- Records created by the callback visitor always carry exported false. -/
theorem callback_exported_false (callee : Node) (args : List Node) (ctx : List Node) :
    ∀ r ∈ visitF (.callExpression callee args) ctx, r.exported = false := by
  intro r hv
  simp only [visitF] at hv
  split at hv
  · split at hv
    · split at hv
      · rcases List.mem_singleton.mp hv with rfl
        rfl
      · simp at hv
    · simp at hv
  · simp at hv

/-- Records created by the JSX-handler visitor always carry exported false. -/
theorem jsx_exported_false (expression : Node) (ctx : List Node) :
    ∀ r ∈ visitF (.jsxExpressionContainer expression) ctx, r.exported = false := by
  intro r hv
  simp only [visitF] at hv
  split at hv
  · rcases List.mem_singleton.mp hv with rfl
    rfl
  · simp at hv

/-- Where an exported record can come from: only the FunctionDeclaration
visitor consults the export wrapper of the visited path; the
VariableDeclarator visitor consults the raw parent node, and every other
visitor passes a flag that evaluates to false. -/
theorem visitF_exported (n : Node) (ctx : List Node) (r : FunctionData)
    (hv : r ∈ visitF n ctx) (hexp : r.exported = true) :
    (∃ id a ps rt b, n = Node.functionDeclaration (some id) a ps rt b ∧
      isExportedPath n ctx = true ∧ r.name = id)
    ∨ (isVariableDeclaratorNode n = true ∧ isExportedNode ctx.head? = true) := by
  unfold visitF at hv
  split at hv
  · -- FunctionDeclaration
    rcases List.mem_singleton.mp hv with rfl
    simp only [createFunctionData] at hexp
    exact Or.inl ⟨_, _, _, _, _, rfl, hexp, rfl⟩
  · -- VariableDeclarator with a function expression
    rcases List.mem_singleton.mp hv with rfl
    simp only [createFunctionData] at hexp
    exact Or.inr ⟨rfl, hexp⟩
  · -- VariableDeclarator with an arrow function
    rcases List.mem_singleton.mp hv with rfl
    simp only [createFunctionData] at hexp
    exact Or.inr ⟨rfl, hexp⟩
  · -- ClassMethod: isClassExported evaluates to false on a class method
    rcases List.mem_singleton.mp hv with rfl
    simp [createFunctionData, isClassExported, isClassDeclarationNode] at hexp
  · -- ObjectMethod: literally false
    rcases List.mem_singleton.mp hv with rfl
    simp [createFunctionData] at hexp
  · -- CallExpression callback
    have hff := callback_exported_false _ _ ctx r hv
    rw [hexp] at hff
    cases hff
  · -- JSXExpressionContainer handler
    have hff := jsx_exported_false _ ctx r hv
    rw [hexp] at hff
    cases hff
  · simp at hv

/-- Counterexample to claim C2: on export const f = arrow the claim says
exported is true; the extractor yields exported = false, because
isExported receives the raw VariableDeclaration node, which carries no
parent pointer, so the export wrapper above it is never seen. -/
theorem c2_counterexample :
    (extractFunctions exportConstArrowAst).map (fun r => (r.name, r.exported)) =
      [("f", false)] := by
  rfl

/-- Claim C2 as amended: exported is true only for a function declaration
whose path shows an export wrapper (its immediate parent node); functions
bound by variable declarators are never marked exported on well-formed
trees (the check sees only the raw declaration node), class methods are
never marked exported (the class walk stops at the raw parent), and
object methods, callbacks and JSX handlers are always unexported.  The
export-function scenario still yields true, the export-class method
yields false. -/
theorem c2_amended :
    (∀ (ast : Node) (r : FunctionData), WfB ast = true →
      r ∈ extractFunctions ast → r.exported = true →
      ∃ n ctx id a ps rt b,
        Event.enter n ctx ∈ eventsN [] ast ∧
        n = Node.functionDeclaration (some id) a ps rt b ∧
        isExportedPath n ctx = true ∧ r.name = id)
    ∧ (extractFunctions exportFunctionAst).map (fun r => (r.name, r.exported)) =
        [("g", true)]
    ∧ (extractFunctions exportClassAst).map (fun r => (r.name, r.exported)) =
        [("C.m", false)] := by
  refine ⟨?_, rfl, rfl⟩
  intro ast r hwf hr hexp
  obtain ⟨n, ctx, hmem, hv⟩ := mem_extractFunctions_elim hr
  rcases visitF_exported n ctx r hv hexp with ⟨id, a, ps, rt, b, rfl, hpath, hname⟩ | ⟨hdecl, hpar⟩
  · exact ⟨_, ctx, id, a, ps, rt, b, hmem, rfl, hpath, hname⟩
  · -- a variable declarator can only sit under a variable declaration,
    -- which is not an export node, so this branch is impossible
    exfalso
    cases hc : ctx with
    | nil =>
      rw [hc] at hpar
      simp [isExportedNode] at hpar
    | cons p rest =>
      rw [hc] at hpar hmem
      rcases NP_all [] ast n p rest hmem with ⟨_, habs⟩ | ⟨hpmem, hchild⟩
      · exact absurd habs (by simp)
      · have hl := localWf_of_enter hwf hpmem
        simp only [localWf, Bool.and_eq_true, List.all_eq_true] at hl
        have hvd := hl.2 n hchild
        rw [hdecl] at hvd
        simp at hvd
        cases p <;> simp [isVariableDeclarationNode] at hvd
        simp [isExportedNode, isExportDecl] at hpar

/-- Witness for the amended claim C2 at the export-function scenario. -/
theorem c2_amended_witness :
    ∃ n ctx id a ps rt b,
      Event.enter n ctx ∈ eventsN [] exportFunctionAst ∧
      n = Node.functionDeclaration (some id) a ps rt b ∧
      isExportedPath n ctx = true ∧
      ({ name := "g", parameters := [], returnType := "any", location := ⟨0, 0, 0, 0⟩,
         async := false, exported := true, documentation := none } : FunctionData).name = id :=
  c2_amended.1 exportFunctionAst _ (by decide) (by decide) (by decide)

/-! ## Claims C6, C7 and C10 (the parse driver) -/

/-- Claim C6: empty input and input beyond the 500KB cap produce exactly
one validation error, no functions and no calls, for every parser oracle,
so no parse is attempted and the error is never of the syntax kind. -/
theorem c6_validation (p : ParserOracle) (code : String)
    (h : code = "" ∨ code.length > 500 * 1024) :
    ∃ e, parseTypeScriptCode p code =
        { functions := [], calls := [], errors := [e], metadata := none } ∧
      e.type = ErrType.validation := by
  rcases h with rfl | hlen
  · exact ⟨_, rfl, rfl⟩
  · have hne : code ≠ "" := by
      intro h0
      rw [h0] at hlen
      simp at hlen
    unfold parseTypeScriptCode
    rw [if_neg hne, if_pos hlen]
    exact ⟨_, rfl, rfl⟩

/-- An oracle whose every tier fails with a fixed message. -/
def failingOracle (msg : String) : ParserOracle :=
  { tier1 := fun _ => .error ⟨msg⟩
    tier2 := fun _ => .error ⟨msg⟩
    tier3 := fun _ => .error ⟨msg⟩ }

/-- Witness for claim C6 at the empty input. -/
theorem c6_validation_witness :
    ∃ e, parseTypeScriptCode (failingOracle "x") "" =
        { functions := [], calls := [], errors := [e], metadata := none } ∧
      e.type = ErrType.validation :=
  c6_validation (failingOracle "x") "" (Or.inl rfl)

/-- Claim C7: when all three fallback tiers fail, the result carries
exactly one error, of the syntax kind, built from the third failure, with
line and column attached whenever the parenthesized pair occurs in the raw
message; functions and calls are empty lists. -/
theorem c7_syntax_failure (p : ParserOracle) (code : String) (e1 e2 e3 : BabelError)
    (hne : code ≠ "") (hlen : ¬ code.length > 500 * 1024)
    (h1 : p.tier1 code = .error e1) (h2 : p.tier2 code = .error e2)
    (h3 : p.tier3 code = .error e3) :
    (parseTypeScriptCode p code).errors = [mkSyntaxError e3] ∧
    (mkSyntaxError e3).type = ErrType.syntaxError ∧
    (parseTypeScriptCode p code).functions = [] ∧
    (parseTypeScriptCode p code).calls = [] ∧
    (∀ l c, extractLineCol e3.message.data = some (l, c) →
      (mkSyntaxError e3).line = some l ∧ (mkSyntaxError e3).column = some c) := by
  have hast : parseAst p code = .error e3 := by
    unfold parseAst
    rw [h1, h2, h3]
  unfold parseTypeScriptCode
  rw [if_neg hne, if_neg hlen, hast]
  refine ⟨rfl, rfl, rfl, rfl, ?_⟩
  intro l c hlc
  unfold mkSyntaxError
  simp [hlc]

/-- Witness for claim C7: the unparseable scenario source, an oracle that
fails every tier with a message carrying the line-and-column pair. -/
theorem c7_syntax_failure_witness :
    (parseTypeScriptCode (failingOracle "Unexpected token (1:26)")
        "function broken(x: number \x7b").errors =
      [mkSyntaxError ⟨"Unexpected token (1:26)"⟩] ∧
    (mkSyntaxError ⟨"Unexpected token (1:26)"⟩).type = ErrType.syntaxError ∧
    (parseTypeScriptCode (failingOracle "Unexpected token (1:26)")
        "function broken(x: number \x7b").functions = [] ∧
    (parseTypeScriptCode (failingOracle "Unexpected token (1:26)")
        "function broken(x: number \x7b").calls = [] ∧
    (mkSyntaxError ⟨"Unexpected token (1:26)"⟩).line = some 1 ∧
    (mkSyntaxError ⟨"Unexpected token (1:26)"⟩).column = some 26 := by
  have h := c7_syntax_failure (failingOracle "Unexpected token (1:26)")
    "function broken(x: number \x7b" ⟨"Unexpected token (1:26)"⟩
    ⟨"Unexpected token (1:26)"⟩ ⟨"Unexpected token (1:26)"⟩
    (by decide) (by decide) rfl rfl rfl
  refine ⟨h.1, h.2.1, h.2.2.1, h.2.2.2.1, ?_⟩
  exact h.2.2.2.2 1 26 (by decide)

/-- Claim C10: for every input string and every oracle behaviour the
driver returns a ParsedCodeResult; it either succeeds with no errors and
the two extraction passes, or it records exactly one caught failure (a
validation error from the input checks or a syntax error from the parser)
on an otherwise empty result.  Exceptions of the embedded extraction code
cannot occur: its traversals are total functions. -/
theorem c10_never_throws (p : ParserOracle) (code : String) :
    ((parseTypeScriptCode p code).errors = [] ∧
      ∃ ast, parseAst p code = Except.ok ast ∧
        (parseTypeScriptCode p code).functions = extractFunctions ast ∧
        (parseTypeScriptCode p code).calls =
          extractFunctionCalls ast (functionNames ast))
    ∨ (∃ e, (parseTypeScriptCode p code).errors = [e] ∧
        (e.type = ErrType.validation ∨ e.type = ErrType.syntaxError) ∧
        (parseTypeScriptCode p code).functions = [] ∧
        (parseTypeScriptCode p code).calls = []) := by
  unfold parseTypeScriptCode
  by_cases h0 : code = ""
  · rw [if_pos h0]
    exact Or.inr ⟨_, rfl, Or.inl rfl, rfl, rfl⟩
  · rw [if_neg h0]
    by_cases h1 : code.length > 500 * 1024
    · rw [if_pos h1]
      exact Or.inr ⟨_, rfl, Or.inl rfl, rfl, rfl⟩
    · rw [if_neg h1]
      cases hast : parseAst p code with
      | error e => exact Or.inr ⟨mkSyntaxError e, rfl, Or.inr rfl, rfl, rfl⟩
      | ok ast => exact Or.inl ⟨rfl, ast, rfl, rfl, rfl⟩

/-! ## Claim C9 -/

/-- Some exported node of the graph has this id. -/
abbrev ExportedId (g : GraphData) (s : String) : Prop :=
  ∃ m ∈ g.nodes, m.data.isExported = true ∧ m.id = s

/-- The id set simplifyGraph keeps: ids of exported nodes and targets of
edges leaving an exported id. -/
abbrev RelevantId (g : GraphData) (s : String) : Prop :=
  ExportedId g s ∨ ∃ e ∈ g.edges, ExportedId g e.source ∧ e.target = s

theorem exportedIds_contains (g : GraphData) (s : String) :
    (((g.nodes.filter fun n => n.data.isExported).map fun n => n.id).contains s = true) ↔
      ExportedId g s := by
  rw [List.contains_iff_exists_mem_beq]
  simp [ExportedId, List.mem_filter, List.mem_map]
  constructor
  · rintro ⟨m, ⟨hm, hexp⟩, hid⟩
    exact ⟨m, hm, hexp, hid⟩
  · rintro ⟨m, hm, hexp, hid⟩
    exact ⟨m, ⟨hm, hexp⟩, hid⟩

theorem relevantIds_contains (g : GraphData) (s : String) :
    ((((g.nodes.filter fun n => n.data.isExported).map fun n => n.id) ++
      ((g.edges.filter fun e =>
          ((g.nodes.filter fun n => n.data.isExported).map fun n => n.id).contains e.source).map
        fun e => e.target)).contains s = true) ↔ RelevantId g s := by
  rw [List.contains_iff_exists_mem_beq]
  simp only [List.mem_append, List.mem_map, List.mem_filter, beq_iff_eq]
  constructor
  · rintro ⟨x, hx | ⟨e, ⟨he, hsrc⟩, rfl⟩, hbeq⟩
    · left
      rw [← exportedIds_contains]
      rw [List.contains_iff_exists_mem_beq]
      exact ⟨x, by simpa using hx, by simpa using hbeq⟩
    · right
      exact ⟨e, he, (exportedIds_contains g e.source).mp hsrc, hbeq.symm⟩
  · rintro (hexp | ⟨e, he, hsrc, htgt⟩)
    · obtain ⟨m, hm, hme, hid⟩ := hexp
      exact ⟨m.id, Or.inl (by exact ⟨m, by simpa using ⟨hm, hme⟩, rfl⟩), by simpa using hid.symm⟩
    · refine ⟨e.target, Or.inr ⟨e, ⟨he, (exportedIds_contains g e.source).mpr hsrc⟩, rfl⟩,
        by simpa using htgt.symm⟩

/-- Claim C9: simplifyGraph keeps exactly the exported nodes plus the
nodes directly called by an exported node (one hop), and drops every edge
with an endpoint outside the kept id set; on the chained scenario where
only main is exported, main and helper survive while utility and its
incoming edge are dropped.  The node characterization assumes the node
ids of the graph are distinct, which holds up to the sanitization
collisions the design notes call out. -/
theorem c9_simplify :
    (∀ (g : GraphData), (g.nodes.map (fun n => n.id)).Nodup →
      (∀ n, n ∈ (simplifyGraph g).nodes ↔
        n ∈ g.nodes ∧ (n.data.isExported = true ∨
          ∃ e ∈ g.edges, (∃ m ∈ g.nodes, m.data.isExported = true ∧ m.id = e.source) ∧
            e.target = n.id)) ∧
      (∀ e, e ∈ (simplifyGraph g).edges ↔
        e ∈ g.edges ∧ RelevantId g e.source ∧ RelevantId g e.target))
    ∧ simplifyGraph
        { nodes :=
            [ ⟨"node-main", ⟨"main", true, false, 1⟩⟩
            , ⟨"node-helper", ⟨"helper", false, false, 1⟩⟩
            , ⟨"node-utility", ⟨"utility", false, false, 1⟩⟩ ]
          edges :=
            [ ⟨"edge-main-to-helper", "node-main", "node-helper", "default", false, none, 1, [], false⟩
            , ⟨"edge-helper-to-utility", "node-helper", "node-utility", "default", false, none, 1, [], false⟩ ] } =
      { nodes :=
          [ ⟨"node-main", ⟨"main", true, false, 1⟩⟩
          , ⟨"node-helper", ⟨"helper", false, false, 1⟩⟩ ]
        edges :=
          [ ⟨"edge-main-to-helper", "node-main", "node-helper", "default", false, none, 1, [], false⟩ ] } := by
  constructor
  · intro g hnd
    constructor
    · intro n
      constructor
      · intro hmem
        unfold simplifyGraph at hmem
        simp only [List.mem_filter] at hmem
        refine ⟨hmem.1, ?_⟩
        rcases (relevantIds_contains g n.id).mp hmem.2 with hexp | hcall
        · obtain ⟨m, hm, hme, hid⟩ := hexp
          have : m = n := List.inj_on_of_nodup_map hnd hm hmem.1 hid
          left
          rw [← this]
          exact hme
        · right
          obtain ⟨e, he, hsrc, htgt⟩ := hcall
          exact ⟨e, he, hsrc, htgt⟩
      · rintro ⟨hmem, hcase⟩
        unfold simplifyGraph
        simp only [List.mem_filter]
        refine ⟨hmem, (relevantIds_contains g n.id).mpr ?_⟩
        rcases hcase with hexp | ⟨e, he, hsrc, htgt⟩
        · exact Or.inl ⟨n, hmem, hexp, rfl⟩
        · exact Or.inr ⟨e, he, hsrc, htgt⟩
    · intro e
      unfold simplifyGraph
      simp only [List.mem_filter, Bool.and_eq_true]
      constructor
      · rintro ⟨he, hs, ht⟩
        exact ⟨he, (relevantIds_contains g e.source).mp hs,
          (relevantIds_contains g e.target).mp ht⟩
      · rintro ⟨he, hs, ht⟩
        exact ⟨he, (relevantIds_contains g e.source).mpr hs,
          (relevantIds_contains g e.target).mpr ht⟩
  · rfl

/-- Witness for claim C9: the node characterization instantiated at the
kept one-hop node of the chained scenario. -/
theorem c9_simplify_witness :
    (⟨"node-helper", ⟨"helper", false, false, 1⟩⟩ : GraphNode) ∈
      (simplifyGraph
        { nodes :=
            [ ⟨"node-main", ⟨"main", true, false, 1⟩⟩
            , ⟨"node-helper", ⟨"helper", false, false, 1⟩⟩
            , ⟨"node-utility", ⟨"utility", false, false, 1⟩⟩ ]
          edges :=
            [ ⟨"edge-main-to-helper", "node-main", "node-helper", "default", false, none, 1, [], false⟩
            , ⟨"edge-helper-to-utility", "node-helper", "node-utility", "default", false, none, 1, [], false⟩ ] }).nodes ↔
    (⟨"node-helper", ⟨"helper", false, false, 1⟩⟩ : GraphNode) ∈
      ([ ⟨"node-main", ⟨"main", true, false, 1⟩⟩
       , ⟨"node-helper", ⟨"helper", false, false, 1⟩⟩
       , ⟨"node-utility", ⟨"utility", false, false, 1⟩⟩ ] : List GraphNode) ∧
    ((⟨"node-helper", ⟨"helper", false, false, 1⟩⟩ : GraphNode).data.isExported = true ∨
      ∃ e ∈ ([ ⟨"edge-main-to-helper", "node-main", "node-helper", "default", false, none, 1, [], false⟩
             , ⟨"edge-helper-to-utility", "node-helper", "node-utility", "default", false, none, 1, [], false⟩ ] : List GraphEdge),
        (∃ m ∈ ([ ⟨"node-main", ⟨"main", true, false, 1⟩⟩
                , ⟨"node-helper", ⟨"helper", false, false, 1⟩⟩
                , ⟨"node-utility", ⟨"utility", false, false, 1⟩⟩ ] : List GraphNode),
          m.data.isExported = true ∧ m.id = e.source) ∧
        e.target = (⟨"node-helper", ⟨"helper", false, false, 1⟩⟩ : GraphNode).id) :=
  ((c9_simplify.1 _ (by decide)).1 _)

/-! ## Claims C3 and C5 (layout engine) -/

theorem layoutNodes_map_id (dg : DagreOracle) (nodes : List LayoutNode)
    (edges : List GraphEdge) (options : PartialLayoutOptions) :
    (layoutNodes dg nodes edges options).map (fun n => n.id) = nodes.map (fun n => n.id) := by
  unfold layoutNodes
  rw [List.map_map]
  rfl

theorem circular_map_id (tr : TrigOracle) (dg : DagreOracle) (nodes : List LayoutNode)
    (edges : List GraphEdge) :
    (createCircularLayout tr dg nodes edges).map (fun n => n.id) = nodes.map (fun n => n.id) := by
  unfold createCircularLayout
  by_cases h1 : nodes.length ≤ 1
  · rw [if_pos h1, List.map_map]
    rfl
  · rw [if_neg h1]
    by_cases h6 : nodes.length ≤ 6
    · rw [if_pos h6, List.map_map]
      have hcomp : ((fun n : LayoutNode => n.id) ∘ fun indexNode : Nat × LayoutNode =>
          { indexNode.2 with
            position := (200 + max 100 ((nodes.length : ℚ) * 30) * (tr indexNode.1 nodes.length).1 - 125,
              200 + max 100 ((nodes.length : ℚ) * 30) * (tr indexNode.1 nodes.length).2 - 50) }) =
          (fun n : LayoutNode => n.id) ∘ (Prod.snd : Nat × LayoutNode → LayoutNode) := rfl
      rw [hcomp, ← List.map_map, List.enum_map_snd]
    · rw [if_neg h6]
      exact layoutNodes_map_id dg nodes edges _

theorem autoLayout_map_id (tr : TrigOracle) (dg : DagreOracle) (nodes : List LayoutNode)
    (edges : List GraphEdge) :
    (autoLayout tr dg nodes edges).map (fun n => n.id) = nodes.map (fun n => n.id) := by
  unfold autoLayout
  by_cases h0 : nodes.length = 0
  · rw [if_pos h0]
  · rw [if_neg h0]
    by_cases h1 : nodes.length = 1
    · rw [if_pos h1]
      cases nodes with
      | nil => simp at h1
      | cons n tail =>
        cases tail with
        | nil => rfl
        | cons m rest => simp at h1
    · rw [if_neg h1]
      by_cases h6 : nodes.length ≤ 6 ∧ edges.length ≤ 8
      · rw [if_pos h6]
        exact circular_map_id tr dg nodes edges
      · rw [if_neg h6]
        by_cases hs : ((edges.length : ℚ) / (nodes.length : ℚ) < 1.5 ∧ nodes.length > 8)
        · rw [if_pos hs]
          exact layoutNodes_map_id dg nodes edges _
        · rw [if_neg hs]
          exact layoutNodes_map_id dg nodes edges _

/-- Claim C5: every layout operation returns exactly as many nodes as it
was given, indeed the same ids in the same order, for every behaviour of
the external dagre and trigonometric oracles; positions are total rational
pairs by construction. -/
theorem c5_layout_preserves_nodes (tr : TrigOracle) (dg : DagreOracle)
    (nodes : List LayoutNode) (edges : List GraphEdge) (options : PartialLayoutOptions) :
    (layoutNodes dg nodes edges options).map (fun n => n.id) = nodes.map (fun n => n.id) ∧
    (createHierarchicalLayout dg nodes edges).map (fun n => n.id) = nodes.map (fun n => n.id) ∧
    (createHorizontalLayout dg nodes edges).map (fun n => n.id) = nodes.map (fun n => n.id) ∧
    (createCircularLayout tr dg nodes edges).map (fun n => n.id) = nodes.map (fun n => n.id) ∧
    (autoLayout tr dg nodes edges).map (fun n => n.id) = nodes.map (fun n => n.id) ∧
    (layoutNodes dg nodes edges options).length = nodes.length ∧
    (createHierarchicalLayout dg nodes edges).length = nodes.length ∧
    (createHorizontalLayout dg nodes edges).length = nodes.length ∧
    (createCircularLayout tr dg nodes edges).length = nodes.length ∧
    (autoLayout tr dg nodes edges).length = nodes.length := by
  have h1 := layoutNodes_map_id dg nodes edges options
  have h2 := layoutNodes_map_id dg nodes edges
    ({ direction := some .TB, rankSep := some 120, nodeSep := some 80 } : PartialLayoutOptions)
  have h3 := layoutNodes_map_id dg nodes edges
    ({ direction := some .LR, rankSep := some 150, nodeSep := some 100 } : PartialLayoutOptions)
  have h4 := circular_map_id tr dg nodes edges
  have h5 := autoLayout_map_id tr dg nodes edges
  have len : ∀ (l : List LayoutNode),
      l.map (fun n => n.id) = nodes.map (fun n => n.id) → l.length = nodes.length := by
    intro l h
    have := congrArg List.length h
    simpa using this
  exact ⟨h1, h2, h3, h4, h5, len _ h1, len _ h2, len _ h3, len _ h4, len _ h5⟩

/-- Counterexample to claim C3: at ten nodes and twenty edges the graph is
neither small nor sparse, so the claim requires the grid layout; the
source selects the hierarchical layout, and the module offers no grid
algorithm at all. -/
theorem c3_counterexample :
    autoLayoutChoice 10 20 = LayoutChoice.hierarchicalChoice ∧
    specAutoLayoutChoice 10 = LayoutChoice.gridChoice ∧
    autoLayoutChoice 10 20 ≠ specAutoLayoutChoice 10 := by
  have h1 : autoLayoutChoice 10 20 = LayoutChoice.hierarchicalChoice := by
    unfold autoLayoutChoice
    norm_num
  refine ⟨h1, rfl, ?_⟩
  rw [h1]
  simp [specAutoLayoutChoice]

/-- Claim C3 as amended: with no explicit algorithm requested, zero nodes
is a no-op and one node is placed at the fixed coordinate, as claimed; but
otherwise the automatic selection picks the circular layout for at most
six nodes with at most eight edges, the horizontal layout for graphs of
more than eight nodes with fewer than one and a half edges per node, and
the hierarchical layout in every remaining case; no grid layout exists in
the module. -/
theorem c3_amended (tr : TrigOracle) (dg : DagreOracle)
    (nodes : List LayoutNode) (edges : List GraphEdge) :
    (nodes = [] → autoLayout tr dg nodes edges = nodes) ∧
    (∀ n, nodes = [n] → autoLayout tr dg nodes edges = [{ n with position := ((200 : ℚ), (200 : ℚ)) }]) ∧
    (2 ≤ nodes.length → nodes.length ≤ 6 → edges.length ≤ 8 →
      autoLayout tr dg nodes edges = createCircularLayout tr dg nodes edges) ∧
    (8 < nodes.length → (edges.length : ℚ) / (nodes.length : ℚ) < 1.5 →
      autoLayout tr dg nodes edges = createHorizontalLayout dg nodes edges) ∧
    (2 ≤ nodes.length → ¬(nodes.length ≤ 6 ∧ edges.length ≤ 8) →
      ¬((edges.length : ℚ) / (nodes.length : ℚ) < 1.5 ∧ 8 < nodes.length) →
      autoLayout tr dg nodes edges = createHierarchicalLayout dg nodes edges) := by
  refine ⟨?_, ?_, ?_, ?_, ?_⟩
  · intro h
    subst h
    rfl
  · intro n h
    subst h
    rfl
  · intro h2 h6 h8
    unfold autoLayout
    rw [if_neg (by omega), if_neg (by omega), if_pos ⟨h6, h8⟩]
  · intro h8 hsp
    unfold autoLayout
    rw [if_neg (by omega), if_neg (by omega), if_neg (by omega), if_pos ⟨hsp, h8⟩]
  · intro h2 hns hnsp
    unfold autoLayout
    rw [if_neg (by omega), if_neg (by omega), if_neg hns, if_neg ?hc]
    case hc =>
      intro ⟨ha, hb⟩
      exact hnsp ⟨ha, hb⟩

def constTrig : TrigOracle := fun _ _ => (1, 0)

def constDagre : DagreOracle := fun _ _ _ _ => (0, 0)

/-- Witness for the amended claim C3: the circular branch at a concrete
two-node graph. -/
theorem c3_amended_witness :
    autoLayout constTrig constDagre
        [⟨"a", (0, 0), none, none, none⟩, ⟨"b", (0, 0), none, none, none⟩] [] =
      createCircularLayout constTrig constDagre
        [⟨"a", (0, 0), none, none, none⟩, ⟨"b", (0, 0), none, none, none⟩] [] :=
  (c3_amended constTrig constDagre _ _).2.2.1 (by decide) (by decide) (by decide)

/-! ## Claim C8: aggregation of calls into edges -/

/-- The grouping key of a call, as groupCallsByRelationship builds it. -/
def keyOf (c : FunctionCall) : String := c.caller ++ " -> " ++ c.callee

def pairOf (c : FunctionCall) : String × String := (c.caller, c.callee)

/-- First-seen deduplication, the key order a JavaScript Map preserves. -/
def firstSeen {α : Type} [BEq α] (l : List α) : List α :=
  l.foldl (fun acc x => if acc.contains x then acc else acc ++ [x]) []

/-- The distinct caller-callee pairs of a call list, in first-seen order. -/
def distinctPairs (calls : List FunctionCall) : List (String × String) :=
  firstSeen (calls.map pairOf)

theorem contains_iff {α : Type} [BEq α] [LawfulBEq α] (l : List α) (a : α) :
    l.contains a = true ↔ a ∈ l := by
  rw [List.contains_iff_exists_mem_beq]
  simp

theorem firstSeenAux_mem {α : Type} [BEq α] [LawfulBEq α] :
    ∀ (l acc : List α) (a : α),
      a ∈ l.foldl (fun acc x => if acc.contains x then acc else acc ++ [x]) acc ↔
        a ∈ acc ∨ a ∈ l := by
  intro l
  induction l with
  | nil => simp
  | cons x xs ih =>
    intro acc a
    rw [List.foldl_cons, ih]
    by_cases h : acc.contains x = true
    · rw [if_pos h]
      rw [contains_iff] at h
      constructor
      · rintro (h1 | h2)
        · exact Or.inl h1
        · exact Or.inr (List.mem_cons_of_mem _ h2)
      · rintro (h1 | h2)
        · exact Or.inl h1
        · rcases List.mem_cons.mp h2 with rfl | h3
          · exact Or.inl h
          · exact Or.inr h3
    · rw [if_neg h]
      simp only [List.mem_append, List.mem_singleton, List.mem_cons]
      tauto

theorem firstSeen_mem {α : Type} [BEq α] [LawfulBEq α] (l : List α) (a : α) :
    a ∈ firstSeen l ↔ a ∈ l := by
  unfold firstSeen
  rw [firstSeenAux_mem]
  simp

theorem firstSeenAux_nodup {α : Type} [BEq α] [LawfulBEq α] :
    ∀ (l acc : List α), acc.Nodup →
      (l.foldl (fun acc x => if acc.contains x then acc else acc ++ [x]) acc).Nodup := by
  intro l
  induction l with
  | nil => intro acc h; simpa using h
  | cons x xs ih =>
    intro acc h
    rw [List.foldl_cons]
    by_cases hc : acc.contains x = true
    · rw [if_pos hc]
      exact ih acc h
    · rw [if_neg hc]
      refine ih _ ?_
      rw [List.nodup_append]
      refine ⟨h, List.nodup_singleton x, ?_⟩
      intro a ha hax
      rcases List.mem_singleton.mp hax with rfl
      rw [← contains_iff (l := acc)] at ha
      exact hc ha

theorem firstSeen_nodup {α : Type} [BEq α] [LawfulBEq α] (l : List α) :
    (firstSeen l).Nodup :=
  firstSeenAux_nodup l [] List.nodup_nil

theorem firstSeen_append_one {α : Type} [BEq α] (l : List α) (x : α) :
    firstSeen (l ++ [x]) =
      if (firstSeen l).contains x then firstSeen l else firstSeen l ++ [x] := by
  unfold firstSeen
  rw [List.foldl_append]
  rfl

/-- If a first seen element maps injectively, deduplication commutes with
the map. -/
theorem firstSeen_map {α β : Type} [BEq α] [LawfulBEq α] [BEq β] [LawfulBEq β]
    (f : α → β) :
    ∀ (l : List α), (∀ x ∈ l, ∀ y ∈ l, f x = f y → x = y) →
      firstSeen (l.map f) = (firstSeen l).map f := by
  intro l
  induction l using List.reverseRecOn with
  | nil => intro _; rfl
  | append_singleton xs x ih =>
    intro hinj
    rw [List.map_append, List.map_singleton, firstSeen_append_one, firstSeen_append_one,
      ih fun a ha b hb => hinj a (List.mem_append_left _ ha) b (List.mem_append_left _ hb)]
    by_cases hx : (firstSeen xs).contains x = true
    · have hlhs : ((firstSeen xs).map f).contains (f x) = true := by
        rw [contains_iff]
        exact List.mem_map.mpr ⟨x, (contains_iff _ _).mp hx, rfl⟩
      rw [hlhs, hx]
      simp
    · have hxf : (firstSeen xs).contains x = false := Bool.eq_false_iff.mpr hx
      have hlhs : ((firstSeen xs).map f).contains (f x) = false := by
        rw [Bool.eq_false_iff]
        intro habs
        rw [contains_iff] at habs
        obtain ⟨y, hy, hfy⟩ := List.mem_map.mp habs
        have hyx : y = x := hinj y (List.mem_append_left _ ((firstSeen_mem xs y).mp hy)) x
          (List.mem_append_right _ (List.mem_singleton_self x)) hfy
        apply hx
        rw [contains_iff, ← hyx]
        exact hy
      rw [hlhs, hxf]
      simp only [if_false, Bool.false_eq_true, List.map_append, List.map_singleton]

/-- Pushing a call onto an existing key appends it to that key's list and
leaves every other entry unchanged (keys are distinct, as they are in the
JavaScript Map). -/
theorem groupInsert_present (f : String → List FunctionCall) (k : String) (c : FunctionCall) :
    ∀ (ks : List String), k ∈ ks → ks.Nodup →
      groupInsert (ks.map fun q => (q, f q)) k c =
        ks.map fun q => (q, f q ++ if q == k then [c] else []) := by
  intro ks
  induction ks with
  | nil => intro hk; cases hk
  | cons k0 rest ih =>
    intro hk hnd
    simp only [List.map_cons, groupInsert]
    by_cases h0 : k0 = k
    · rw [if_pos h0]
      subst h0
      have hnotin : k0 ∉ rest := (List.nodup_cons.mp hnd).1
      have : (rest.map fun q => (q, f q ++ if q == k0 then [c] else [])) =
          rest.map fun q => (q, f q) := by
        apply List.map_congr_left
        intro q hq
        have : q ≠ k0 := fun h => hnotin (h ▸ hq)
        simp [this]
      rw [this]
      simp
    · rw [if_neg h0]
      have hk' : k ∈ rest := by
        rcases List.mem_cons.mp hk with rfl | h
        · exact absurd rfl h0
        · exact h
      rw [ih hk' (List.nodup_cons.mp hnd).2]
      have : k0 ≠ k := h0
      simp [this]

/-- Pushing a call onto a missing key appends a new singleton entry. -/
theorem groupInsert_new (k : String) (c : FunctionCall) :
    ∀ (gs : List (String × List FunctionCall)), (∀ p ∈ gs, p.1 ≠ k) →
      groupInsert gs k c = gs ++ [(k, [c])] := by
  intro gs
  induction gs with
  | nil => intro _; rfl
  | cons p rest ih =>
    intro h
    cases p with
    | mk k0 g0 =>
      simp only [groupInsert]
      rw [if_neg (h (k0, g0) (List.mem_cons_self _ _))]
      rw [ih fun q hq => h q (List.mem_cons_of_mem _ hq)]
      rfl

/-- groupCallsByRelationship is the first-seen list of keys, each paired
with the sublist of calls carrying that key. -/
theorem groups_eq : ∀ (calls : List FunctionCall),
    groupCallsByRelationship calls =
      (firstSeen (calls.map keyOf)).map fun k =>
        (k, calls.filter fun c => keyOf c == k) := by
  intro calls
  induction calls using List.reverseRecOn with
  | nil => rfl
  | append_singleton cs c ih =>
    have lhs_step : groupCallsByRelationship (cs ++ [c]) =
        groupInsert (groupCallsByRelationship cs) (keyOf c) c := by
      unfold groupCallsByRelationship
      rw [List.foldl_append]
      rfl
    rw [lhs_step, ih, List.map_append, List.map_singleton, firstSeen_append_one]
    by_cases hc : (firstSeen (cs.map keyOf)).contains (keyOf c) = true
    · rw [if_pos hc]
      rw [groupInsert_present (fun k => cs.filter fun c' => keyOf c' == k) (keyOf c) c
        (firstSeen (cs.map keyOf)) ((contains_iff _ _).mp hc) (firstSeen_nodup _)]
      apply List.map_congr_left
      intro k hk
      rw [List.filter_append]
      congr 1
      by_cases hkc : keyOf c = k
      · simp [hkc.symm, List.filter]
      · have hkc' : ¬ k = keyOf c := fun h => hkc h.symm
        have h1 : (k == keyOf c) = false := by simp [hkc']
        have h2 : (keyOf c == k) = false := by simp [hkc]
        simp [List.filter, h1, h2]
    · rw [if_neg hc]
      have hnotin : keyOf c ∉ firstSeen (cs.map keyOf) := fun h =>
        hc ((contains_iff _ _).mpr h)
      rw [groupInsert_new (keyOf c) c _ ?hne]
      case hne =>
        intro p hp
        obtain ⟨k, hk, rfl⟩ := List.mem_map.mp hp
        intro habs
        exact hnotin (habs ▸ hk)
      rw [List.map_append, List.map_singleton]
      congr 1
      · apply List.map_congr_left
        intro k hk
        rw [List.filter_append]
        have h2 : (keyOf c == k) = false := by
          have : keyOf c ≠ k := fun h => hnotin (h ▸ hk)
          simp [this]
        simp [List.filter, h2]
      · have hfe : (cs.filter fun c' => keyOf c' == keyOf c) = [] := by
          rw [List.filter_eq_nil_iff]
          intro c' hc' habs
          apply hnotin
          rw [firstSeen_mem]
          have : keyOf c' = keyOf c := by simpa using habs
          exact this ▸ List.mem_map.mpr ⟨c', hc', rfl⟩
        rw [List.filter_append, hfe]
        simp [List.filter]

/-- A call whose names round-trip through the arrow-separated key: its
caller and callee contain no occurrence that confuses the split.  This
holds of every name the extractor can produce for ordinary sources and is
checkable by computation. -/
abbrev KeyOk (c : FunctionCall) : Prop :=
  splitStr (keyOf c) " -> " = [c.caller, c.callee]

/-- Claim C8: createFunctionEdges yields exactly one edge per distinct
caller-callee pair in first-seen order; its callCount is the number of
matching call records, its label is the count with an x suffix exactly
when the count exceeds one, its animated flag is the async heuristic over
the group, and its id is built from the sanitized names. -/
theorem c8_edge_aggregation (calls : List FunctionCall)
    (hok : ∀ c ∈ calls, KeyOk c) :
    (createFunctionEdges calls).map
        (fun e => (e.source, e.target, e.callCount, e.label, e.animated, e.id)) =
      (distinctPairs calls).map (fun pr =>
        (createNodeId pr.1, createNodeId pr.2,
         (calls.filter fun c => c.caller == pr.1 && c.callee == pr.2).length,
         (if (calls.filter fun c => c.caller == pr.1 && c.callee == pr.2).length > 1
          then some (toString (calls.filter fun c => c.caller == pr.1 && c.callee == pr.2).length ++ "x")
          else none),
         (calls.filter fun c => c.caller == pr.1 && c.callee == pr.2).any isAsyncCall,
         createEdgeId pr.1 pr.2)) := by
  have hkeys : firstSeen (calls.map keyOf) =
      (distinctPairs calls).map (fun pr => pr.1 ++ " -> " ++ pr.2) := by
    unfold distinctPairs
    have hmm : calls.map keyOf = (calls.map pairOf).map (fun pr => pr.1 ++ " -> " ++ pr.2) := by
      rw [List.map_map]
      rfl
    rw [hmm]
    apply firstSeen_map
    intro x hx y hy hfxy
    obtain ⟨cx, hcx, rfl⟩ := List.mem_map.mp hx
    obtain ⟨cy, hcy, rfl⟩ := List.mem_map.mp hy
    have h1 := hok cx hcx
    have h2 := hok cy hcy
    unfold KeyOk keyOf at h1 h2
    have hs := congrArg (fun s => splitStr s " -> ") hfxy
    simp only at hs
    rw [show ((pairOf cx).1 ++ " -> " ++ (pairOf cx).2) = cx.caller ++ " -> " ++ cx.callee from rfl,
      show ((pairOf cy).1 ++ " -> " ++ (pairOf cy).2) = cy.caller ++ " -> " ++ cy.callee from rfl,
      h1, h2] at hs
    have e1 : cx.caller = cy.caller := by injection hs
    have e2 : cx.callee = cy.callee := by
      have := hs
      injection this with _ t
      injection t
    unfold pairOf
    rw [e1, e2]
  unfold createFunctionEdges
  rw [groups_eq, List.map_map, List.map_map, hkeys, List.map_map]
  apply List.map_congr_left
  intro pr hpr
  have hpr' : pr ∈ calls.map pairOf := (firstSeen_mem _ _).mp hpr
  obtain ⟨c₀, hc₀, hpr₀⟩ := List.mem_map.mp hpr'
  have hsplit : splitStr (pr.1 ++ " -> " ++ pr.2) " -> " = [pr.1, pr.2] := by
    have h0 := hok c₀ hc₀
    unfold KeyOk keyOf at h0
    rw [← hpr₀]
    exact h0
  have hfilter : (calls.filter fun c => keyOf c == pr.1 ++ " -> " ++ pr.2) =
      calls.filter fun c => c.caller == pr.1 && c.callee == pr.2 := by
    apply List.filter_congr
    intro c hc
    have hkc := hok c hc
    unfold KeyOk at hkc
    by_cases h : c.caller = pr.1 ∧ c.callee = pr.2
    · obtain ⟨e1, e2⟩ := h
      have : keyOf c = pr.1 ++ " -> " ++ pr.2 := by
        unfold keyOf
        rw [e1, e2]
      simp [this, e1, e2]
    · have hne : ¬ keyOf c = pr.1 ++ " -> " ++ pr.2 := by
        intro habs
        apply h
        have hs := congrArg (fun s => splitStr s " -> ") habs
        simp only at hs
        rw [hkc, hsplit] at hs
        have e1 : c.caller = pr.1 := by injection hs
        have e2 : c.callee = pr.2 := by
          injection hs with _ t
          injection t
        exact ⟨e1, e2⟩
      have hb1 : (keyOf c == pr.1 ++ " -> " ++ pr.2) = false := by simp [hne]
      have hb2 : (c.caller == pr.1 && c.callee == pr.2) = false := by
        rcases not_and_or.mp h with h1 | h2
        · simp [h1]
        · simp [h2]
      rw [hb1, hb2]
  simp only [Function.comp]
  rw [hfilter, hsplit]
  rfl

/-- Witness for claim C8: three identical records give a single edge with
count three and the label of three with an x suffix. -/
theorem c8_edge_aggregation_witness :
    (∀ c ∈ ([⟨"A", "B", 0⟩, ⟨"A", "B", 0⟩, ⟨"A", "B", 0⟩] : List FunctionCall), KeyOk c) ∧
    (createFunctionEdges [⟨"A", "B", 0⟩, ⟨"A", "B", 0⟩, ⟨"A", "B", 0⟩]).map
        (fun e => (e.source, e.target, e.callCount, e.label, e.animated, e.id)) =
      [("node-A", "node-B", 3, some "3x", false, "edge-A-to-B")] :=
  ⟨by decide, by rw [c8_edge_aggregation _ (by decide)]; rfl⟩

end CodeViz
